import Mathlib

/-!
Verification of the EveryBot workspace sandbox, approval ledger, file tools
and HTTP tool endpoints.

The TypeScript sources are shallowly embedded:
* a filesystem path is a list of segments (a POSIX absolute path split on "/");
* the filesystem is an association list from absolute paths to nodes
  (regular file with content, directory, or symbolic link);
* `WorkspaceFS` methods become pure functions threading the filesystem state
  and returning `Except Reason` in place of thrown `Error`s;
* `ApprovalManager` becomes a record with an explicit call trace standing for
  the synchronous listener invocations;
* the HTTP handler branches for the file-tool and approval endpoints become
  functions from server state to server state plus a response value.
-/

set_option maxRecDepth 10000

/-- Association-list lookup (first binding wins, mirroring shadowing updates). -/
def alookup {α β : Type} [DecidableEq α] : List (α × β) → α → Option β
  | [], _ => none
  | (k, v) :: rest, a => if k = a then some v else alookup rest a

/-- JS `String.prototype.startsWith`: code-unit prefix test. -/
def jsStartsWith (s p : String) : Bool := p.data.isPrefixOf s.data

/-- JS `String.prototype.trim`: strip leading and trailing whitespace
(ASCII whitespace suffices for the paths considered here). -/
def jsTrim (s : String) : String :=
  String.mk (((s.data.dropWhile Char.isWhitespace).reverse.dropWhile
    Char.isWhitespace).reverse)

/-- Splitting on a separator character, as JS `split` / node's internal
path-segment scan: `splitChars '/' "a//b".data = [['a'], [], ['b']]`. -/
def splitChars (sep : Char) : List Char → List (List Char)
  | [] => [[]]
  | c :: rest =>
    let r := splitChars sep rest
    if c = sep then [] :: r
    else
      match r with
      | [] => [[c]]
      | h :: t => (c :: h) :: t

def splitOnSlash (s : String) : List String := (splitChars '/' s.data).map String.mk

instance exceptDecEq {ε α : Type} [DecidableEq ε] [DecidableEq α] :
    DecidableEq (Except ε α) := fun a b =>
  match a, b with
  | .error e, .error f =>
    if h : e = f then isTrue (by rw [h])
    else isFalse (fun hh => h (by injection hh))
  | .ok x, .ok y =>
    if h : x = y then isTrue (by rw [h])
    else isFalse (fun hh => h (by injection hh))
  | .error _, .ok _ => isFalse (fun hh => Except.noConfusion hh)
  | .ok _, .error _ => isFalse (fun hh => Except.noConfusion hh)

/-- A filesystem node: regular file with text content, directory, or symlink.
Symlink targets are not modelled; the sandbox rejects symlinks before any
operation that would follow one (write mode is the exception, see the C2
theorems). -/
inductive FsNode where
  | file (content : String)
  | dir
  | symlink
deriving DecidableEq

/-- The filesystem: bindings from absolute paths (segment lists) to nodes.
Later bindings shadow earlier ones. -/
abbrev Fs := List (List String × FsNode)

def lookupFs (fs : Fs) (p : List String) : Option FsNode := alookup fs p

def fsExists (fs : Fs) (p : List String) : Bool := (lookupFs fs p).isSome

def fsSet (fs : Fs) (p : List String) (n : FsNode) : Fs := (p, n) :: fs

/-- All prefixes of a path, shortest first (including `[]`, the fs root `/`). -/
def pathInits : List String → List (List String)
  | [] => [[]]
  | a :: rest => [] :: (pathInits rest).map (fun q => a :: q)

/-- `fs.mkdir(p, { recursive: true })`, failure-free variant used for the
on-demand creation of the workspace root: missing prefixes become
directories, existing bindings are left alone (a conflicting ancestor of the
root would make the real call throw; that corner is not modelled). -/
def mkdirp (fs : Fs) (p : List String) : Fs :=
  (pathInits p).foldl (fun acc q => if fsExists acc q then acc else fsSet acc q .dir) fs

/-- `fs.mkdir(p, { recursive: true })` as used by `writeText`: creates missing
prefixes as directories, fails (ENOTDIR) when an existing prefix is not a
directory. -/
def mkdirpGo (fs : Fs) : List (List String) → Option Fs
  | [] => some fs
  | q :: rest =>
    match lookupFs fs q with
    | none => mkdirpGo (fsSet fs q .dir) rest
    | some .dir => mkdirpGo fs rest
    | some _ => none

def mkdirpE (fs : Fs) (p : List String) : Option Fs := mkdirpGo fs (pathInits p)

/-- `fs.rm(p, { recursive: true, force: true })`: drop `p` and everything
below it; removing a non-existent path is not an error. -/
def fsRemoveTree (fs : Fs) (p : List String) : Fs :=
  fs.filter (fun e => !(p.isPrefixOf e.1))

/-- Deduplicated keys of the filesystem, first occurrence first. -/
def fsKeys (fs : Fs) : List (List String) := (fs.map Prod.fst).dedup

/-- `fs.readdir(p, { withFileTypes: true })` followed by the
`WorkspaceFS.listDir` mapping: immediate children of `p`, directories with a
trailing "/" marker. -/
def readdir (fs : Fs) (p : List String) : List String :=
  (fsKeys fs).filterMap (fun q =>
    if q.length = p.length + 1 ∧ p.isPrefixOf q then
      match lookupFs fs q with
      | some .dir => some ((q.getLastD "") ++ "/")
      | some _ => some (q.getLastD "")
      | none => none
    else none)

/-- The error taxonomy of the sandbox and store.  In the source these are
`Error` values with fixed message texts (see `reasonMsg`). -/
inductive Reason where
  | EmptyPath
  | AbsolutePath
  | DrivePath
  | UncPath
  | PathEscapesWorkspace
  | SymlinkNotAllowed
  | FileTooLarge
  | NotFound
  | IOError
deriving DecidableEq

/-- The `Error` message texts of the source.  `SymlinkNotAllowed` and
`FileTooLarge` messages carry the offending path / byte count as a suffix in
the source; only the fixed part is modelled.  `NotFound` / `IOError` stand
for messages produced by the node runtime (ENOENT, EISDIR, ...). -/
def reasonMsg : Reason → String
  | .EmptyPath => "Empty path"
  | .AbsolutePath => "Absolute path not allowed"
  | .DrivePath => "Drive path not allowed"
  | .UncPath => "UNC path not allowed"
  | .PathEscapesWorkspace => "Path escapes workspace"
  | .SymlinkNotAllowed => "Symlink/junction is not allowed"
  | .FileTooLarge => "File too large"
  | .NotFound => "Not found"
  | .IOError => "IO error"

inductive Mode where
  | read
  | write
  | list
  | delete
deriving DecidableEq

/-- node `path.win32.isAbsolute`: a leading path separator, or a drive letter
followed by ":" and a separator with at least three characters present. -/
def isPathSep (c : Char) : Bool := c == '/' || c == '\\'

def win32IsAbsolute (s : String) : Bool :=
  match s.data with
  | [] => false
  | c :: rest =>
    isPathSep c ||
    (match rest with
     | c1 :: c2 :: _ => c.isAlpha && c1 == ':' && isPathSep c2
     | _ => false)

/-- The regex `^[a-zA-Z]:` of the drive check. -/
def hasDrivePrefix (s : String) : Bool :=
  match s.data with
  | c :: c1 :: _ => c.isAlpha && c1 == ':'
  | _ => false

/-- Segment normalization underlying node's posix `path.resolve`: "" and "."
segments are dropped, ".." pops the last segment (clamped at the filesystem
root), anything else is appended. -/
def resolveSegs (init : List String) : List String → List String
  | [] => init
  | s :: rest =>
    if s = "" ∨ s = "." then resolveSegs init rest
    else if s = ".." then resolveSegs init.dropLast rest
    else resolveSegs (init ++ [s]) rest

/-- node posix `path.resolve(root, userPath)` with `root` an absolute
canonical path (the resolved workspace root). -/
def posixResolve (root : List String) (userPath : String) : List String :=
  if jsStartsWith userPath "/" then resolveSegs [] (splitOnSlash userPath)
  else resolveSegs root (splitOnSlash userPath)

/-- node posix `path.relative` on two resolved absolute paths, as segments:
strip the common prefix, one ".." per remaining segment of the first
argument, then the remaining segments of the second. -/
def relativeSegs : List String → List String → List String
  | [], t => t
  | _ :: fr, [] => List.replicate (fr.length + 1) ".."
  | f :: fr, t :: tr =>
    if f = t then relativeSegs fr tr
    else List.replicate (fr.length + 1) ".." ++ (t :: tr)

/-- Joining segments with "/" (the string `path.relative` returns). -/
def joinSegs : List String → String
  | [] => ""
  | [s] => s
  | s :: rest => s ++ "/" ++ joinSegs rest

/-- node posix `path.join(cur, part)` for a single separator-free `part`
(join normalizes, so ".." pops a segment). -/
def joinSeg (cur : List String) (part : String) : List String :=
  if part = ".." then cur.dropLast
  else if part = "." ∨ part = "" then cur
  else cur ++ [part]

/-- posix `path.dirname` on an absolute path. -/
def dirname (p : List String) : List String := p.dropLast

namespace WorkspaceFS

/-- `WorkspaceFS.assertNotLinkOrReparse`: `lstat` the path and fail when it is
a symbolic link.  Callers check existence first, so the missing-path `lstat`
throw is unreachable here. -/
def assertNotLinkOrReparse (fs : Fs) (p : List String) : Except Reason Unit :=
  match lookupFs fs p with
  | some .symlink => .error .SymlinkNotAllowed
  | _ => .ok ()

/-- The symlink walk of `ensureInsideWorkspace`: from `cur`, join each part in
turn; stop at the first component that does not exist, fail at the first
existing component that is a symlink. -/
def walk (fs : Fs) : List String → List String → Except Reason Unit
  | _, [] => .ok ()
  | cur, part :: rest =>
    let next := joinSeg cur part
    if fsExists fs next then
      match assertNotLinkOrReparse fs next with
      | .error e => .error e
      | .ok _ => walk fs next rest
    else .ok ()

/-- `WorkspaceFS.ensureInsideWorkspace(userPath, mode)`.  `workspaceRoot` is
the already-resolved root (`path.resolve(this.workspaceRoot)`).  The returned
filesystem reflects the on-demand creation of the root directory.  The
source computes `partsToCheck` by splitting the `path.relative` string on the
separator and dropping falsy parts; here the segments are filtered directly. -/
def ensureInsideWorkspace (fs : Fs) (workspaceRoot : List String)
    (userPath : String) (mode : Mode) : Fs × Except Reason (List String) :=
  if jsTrim userPath = "" then (fs, .error .EmptyPath)
  else if win32IsAbsolute userPath then (fs, .error .AbsolutePath)
  else if hasDrivePrefix userPath then (fs, .error .DrivePath)
  else if jsStartsWith userPath "\\\\" || jsStartsWith userPath "//" then
    (fs, .error .UncPath)
  else
    let root := workspaceRoot
    let resolved := posixResolve root userPath
    let rel := joinSegs (relativeSegs root resolved)
    if jsStartsWith rel ".." || jsStartsWith rel "/" then
      (fs, .error .PathEscapesWorkspace)
    else
      let targetToCheck := if mode = Mode.write then dirname resolved else resolved
      let fs1 := if fsExists fs root then fs else mkdirp fs root
      match assertNotLinkOrReparse fs1 root with
      | .error e => (fs1, .error e)
      | .ok _ =>
        let partsToCheck := (relativeSegs root targetToCheck).filter (fun s => s != "")
        match walk fs1 root partsToCheck with
        | .error e => (fs1, .error e)
        | .ok _ => (fs1, .ok resolved)

/-- `WorkspaceFS.readText(userPath, maxBytes)`. -/
def readText (fs : Fs) (workspaceRoot : List String) (userPath : String)
    (maxBytes : Nat) : Fs × Except Reason String :=
  match ensureInsideWorkspace fs workspaceRoot userPath .read with
  | (fs1, .error e) => (fs1, .error e)
  | (fs1, .ok p) =>
    match lookupFs fs1 p with
    | none => (fs1, .error .NotFound)
    | some (.file c) =>
      if c.utf8ByteSize > maxBytes then (fs1, .error .FileTooLarge)
      else (fs1, .ok c)
    | some _ => (fs1, .error .IOError)

/-- `WorkspaceFS.writeText(userPath, content)`: resolve in write mode, create
parent directories, then write.  `writeFile` on an existing directory fails
(EISDIR); on a symlink the real call would follow the link, which is not
modelled (see the C2 theorems for the unchecked write-mode target). -/
def writeText (fs : Fs) (workspaceRoot : List String) (userPath content : String) :
    Fs × Except Reason Unit :=
  match ensureInsideWorkspace fs workspaceRoot userPath .write with
  | (fs1, .error e) => (fs1, .error e)
  | (fs1, .ok p) =>
    match mkdirpE fs1 (dirname p) with
    | none => (fs1, .error .IOError)
    | some fs2 =>
      match lookupFs fs2 p with
      | some .dir => (fs2, .error .IOError)
      | some .symlink => (fs2, .error .IOError)
      | _ => (fsSet fs2 p (.file content), .ok ())

/-- `WorkspaceFS.listDir(userPath)`. -/
def listDir (fs : Fs) (workspaceRoot : List String) (userPath : String) :
    Fs × Except Reason (List String) :=
  match ensureInsideWorkspace fs workspaceRoot userPath .list with
  | (fs1, .error e) => (fs1, .error e)
  | (fs1, .ok p) =>
    match lookupFs fs1 p with
    | some .dir => (fs1, .ok (readdir fs1 p))
    | some _ => (fs1, .error .IOError)
    | none => (fs1, .error .NotFound)

/-- `WorkspaceFS.remove(userPath)`: recursive and idempotent. -/
def remove (fs : Fs) (workspaceRoot : List String) (userPath : String) :
    Fs × Except Reason Unit :=
  match ensureInsideWorkspace fs workspaceRoot userPath .delete with
  | (fs1, .error e) => (fs1, .error e)
  | (fs1, .ok p) => (fsRemoveTree fs1 p, .ok ())

end WorkspaceFS

/-! ## File tools (`createFileTools`) -/

inductive FileData where
  | text (s : String)
  | entries (l : List String)
deriving DecidableEq

/-- `FileToolResult`: `{ ok: true, data } | { ok: false, error }`. -/
inductive FileToolResult where
  | ok (data : FileData)
  | err (error : String)
deriving DecidableEq

namespace FileTools

/-- `createFileTools(...).list`: an empty user path is replaced by ".". -/
def list (fs : Fs) (workspaceRoot : List String) (userPath : String) :
    Fs × FileToolResult :=
  match WorkspaceFS.listDir fs workspaceRoot (if userPath = "" then "." else userPath) with
  | (fs1, .ok es) => (fs1, .ok (.entries es))
  | (fs1, .error e) => (fs1, .err (reasonMsg e))

/-- `createFileTools(...).read`. -/
def read (fs : Fs) (workspaceRoot : List String) (userPath : String)
    (maxBytes : Nat) : Fs × FileToolResult :=
  match WorkspaceFS.readText fs workspaceRoot userPath maxBytes with
  | (fs1, .ok c) => (fs1, .ok (.text c))
  | (fs1, .error e) => (fs1, .err (reasonMsg e))

/-- `createFileTools(...).write`. -/
def write (fs : Fs) (workspaceRoot : List String) (userPath content : String) :
    Fs × FileToolResult :=
  match WorkspaceFS.writeText fs workspaceRoot userPath content with
  | (fs1, .ok _) => (fs1, .ok (.text "written"))
  | (fs1, .error e) => (fs1, .err (reasonMsg e))

/-- `createFileTools(...).delete`. -/
def delete (fs : Fs) (workspaceRoot : List String) (userPath : String) :
    Fs × FileToolResult :=
  match WorkspaceFS.remove fs workspaceRoot userPath with
  | (fs1, .ok _) => (fs1, .ok (.text "deleted"))
  | (fs1, .error e) => (fs1, .err (reasonMsg e))

end FileTools

/-! ## Approval ledger (`ApprovalManager`) -/

/-- The `args` payload of a pending tool: `{ path, content }` for
`file.write`, `{ path }` for `file.delete`. -/
inductive ToolArgs where
  | writeA (path content : String)
  | deleteA (path : String)
deriving DecidableEq

/-- The cast `p.args as { path: string }` of the approve handler: both
payload shapes carry a path. -/
def ToolArgs.path : ToolArgs → String
  | .writeA p _ => p
  | .deleteA p => p

/-- The cast `p.args as { path: string; content: string }`.  On a
`file.delete` payload the source would read `undefined`; that state is
unreachable in the composed system and modelled as "". -/
def ToolArgs.content : ToolArgs → String
  | .writeA _ c => c
  | .deleteA _ => ""

structure PendingTool where
  id : String
  tool : String
  args : ToolArgs
  createdAt : String
deriving DecidableEq

/-- `ApprovalManager` state.  `randomUUID` is external: `add` receives the
fresh id as an argument and freshness is a hypothesis of the theorems.
Listener callbacks are opaque: `listeners` holds registration tokens in
order, and `calls` is the trace of synchronous invocations `(token, id,
approved)` that `forEach` has performed, in order. -/
structure ApprovalManager where
  pending : List (String × PendingTool)
  listeners : List Nat
  nextListener : Nat
  calls : List (Nat × String × Bool)
deriving DecidableEq

namespace ApprovalManager

def empty : ApprovalManager := ⟨[], [], 0, []⟩

/-- `add(tool, args)`: insert a fresh pending entry, return its id.
JS `Map` iterates in insertion order, so insertion appends. -/
def add (m : ApprovalManager) (id tool : String) (args : ToolArgs)
    (now : String) : ApprovalManager × String :=
  ({ m with pending := m.pending ++ [(id, ⟨id, tool, args, now⟩)] }, id)

def get (m : ApprovalManager) (id : String) : Option PendingTool :=
  alookup m.pending id

def list (m : ApprovalManager) : List PendingTool := m.pending.map Prod.snd

def eraseKey (l : List (String × PendingTool)) (id : String) :
    List (String × PendingTool) :=
  l.filter (fun e => e.1 != id)

/-- `approve(id)`: if pending, remove the entry, notify every registered
listener with `(id, true)`, and return the removed record; otherwise return
`null` with no side effect. -/
def approve (m : ApprovalManager) (id : String) :
    Option PendingTool × ApprovalManager :=
  match alookup m.pending id with
  | none => (none, m)
  | some p =>
    (some p,
     { m with
        pending := eraseKey m.pending id,
        calls := m.calls ++ m.listeners.map (fun l => (l, id, true)) })

/-- `reject(id)`: symmetric to approve, returning whether an entry existed. -/
def reject (m : ApprovalManager) (id : String) : Bool × ApprovalManager :=
  match alookup m.pending id with
  | none => (false, m)
  | some _ =>
    (true,
     { m with
        pending := eraseKey m.pending id,
        calls := m.calls ++ m.listeners.map (fun l => (l, id, false)) })

/-- `onResolve(fn)`: register a listener; returns its token. -/
def onResolve (m : ApprovalManager) : ApprovalManager × Nat :=
  ({ m with
      listeners := m.listeners ++ [m.nextListener],
      nextListener := m.nextListener + 1 },
   m.nextListener)

end ApprovalManager

/-! ## Audit log and HTTP tool endpoints (`createHttpServer`) -/

/-- One audit record.  The display-only `args` payload and the server-assigned
timestamp are not modelled; `result` is one of "pending" / "ok" / "error". -/
structure AuditEntry where
  tool : String
  result : String
  detail : Option String
deriving DecidableEq

/-- Server-side state threaded through the HTTP handler branches.
`auditOk` models whether the `fs.appendFile` behind `AuditLogger.log`
currently succeeds; when it is false the awaited `log` call throws and the
surrounding catch-all turns the request into a 500 response. -/
structure ServerState where
  am : ApprovalManager
  fs : Fs
  audit : List AuditEntry
  auditOk : Bool
deriving DecidableEq

/-- `AuditLogger.log`: append one line on success; on failure the trail is
unchanged and the caller sees a thrown error (`false`). -/
def auditLog (st : ServerState) (e : AuditEntry) : ServerState × Bool :=
  if st.auditOk then ({ st with audit := st.audit ++ [e] }, true) else (st, false)

/-- Stand-in for the message of the error thrown by a failing audit append. -/
def auditFailMsg : String := "audit append failed"

/-- The JSON responses the modelled endpoints produce. -/
inductive HttpOut where
  | errorResp (status : Nat) (error : String)
  | pendingResp (status : Nat) (pendingId : String) (message : String)
  | toolResp (status : Nat) (r : FileToolResult)
  | rejectedResp (status : Nat) (rejected : Bool)
deriving DecidableEq

def MAX_WRITE_BYTES : Nat := 10 * 1024 * 1024

/-- The `/api/tools/file/write` branch of `createHttpServer`.  `freshId` is
the `randomUUID` value `ApprovalManager.add` would draw and `now` the
timestamp; `path` and `content` are the parsed body fields ("" stands for a
missing `path`, matching the falsy test; a non-string `content` body is not
modelled). -/
def handleFileWrite (st : ServerState) (freshId now path content : String) :
    ServerState × HttpOut :=
  if path = "" then (st, .errorResp 400 "Missing path")
  else if String.utf8ByteSize content > MAX_WRITE_BYTES then
    (st, .errorResp 413 "Content too large")
  else
    let (am1, id) := st.am.add freshId "file.write" (.writeA path content) now
    let st1 := { st with am := am1 }
    match auditLog st1 ⟨"file.write", "pending", some id⟩ with
    | (st2, true) => (st2, .pendingResp 200 id "Approval required")
    | (st2, false) => (st2, .errorResp 500 auditFailMsg)

/-- The `/api/tools/file/delete` branch of `createHttpServer`. -/
def handleFileDelete (st : ServerState) (freshId now path : String) :
    ServerState × HttpOut :=
  if path = "" then (st, .errorResp 400 "Missing path")
  else
    let (am1, id) := st.am.add freshId "file.delete" (.deleteA path) now
    let st1 := { st with am := am1 }
    match auditLog st1 ⟨"file.delete", "pending", some id⟩ with
    | (st2, true) => (st2, .pendingResp 200 id "Approval required")
    | (st2, false) => (st2, .errorResp 500 auditFailMsg)

/-- The `/api/approvals/:id/:action` branch of `createHttpServer`:
on "approve", consume the ledger entry, execute the deferred tool against
the workspace, audit, and answer with the tool result; on "reject", consume
the entry and answer `{ rejected }`.  Any other action falls through to the
404 at the end of the handler. -/
def handleApprovals (st : ServerState) (workspaceRoot : List String)
    (id action : String) : ServerState × HttpOut :=
  if id = "" then (st, .errorResp 400 "Missing id")
  else if action = "approve" then
    match st.am.approve id with
    | (none, am1) => ({ st with am := am1 }, .errorResp 404 "Not found")
    | (some p, am1) =>
      let st1 := { st with am := am1 }
      if p.tool = "file.write" then
        let (fs1, out) := FileTools.write st1.fs workspaceRoot p.args.path p.args.content
        let st2 := { st1 with fs := fs1 }
        let detail := match out with
          | .ok _ => none
          | .err msg => some msg
        let result := match out with
          | .ok _ => "ok"
          | .err _ => "error"
        match auditLog st2 ⟨p.tool, result, detail⟩ with
        | (st3, true) => (st3, .toolResp 200 out)
        | (st3, false) => (st3, .errorResp 500 auditFailMsg)
      else if p.tool = "file.delete" then
        let (fs1, out) := FileTools.delete st1.fs workspaceRoot p.args.path
        let st2 := { st1 with fs := fs1 }
        let detail := match out with
          | .ok _ => none
          | .err msg => some msg
        let result := match out with
          | .ok _ => "ok"
          | .err _ => "error"
        match auditLog st2 ⟨p.tool, result, detail⟩ with
        | (st3, true) => (st3, .toolResp 200 out)
        | (st3, false) => (st3, .errorResp 500 auditFailMsg)
      else (st1, .errorResp 400 "Unknown tool")
  else if action = "reject" then
    let (ok, am1) := st.am.reject id
    ({ st with am := am1 }, .rejectedResp 200 ok)
  else (st, .errorResp 404 "Not Found")

/-! ## Helper lemmas -/

theorem isPrefixOf_eq_true_iff {α : Type} [DecidableEq α] {l₁ l₂ : List α} :
    l₁.isPrefixOf l₂ = true ↔ l₁ <+: l₂ :=
  List.isPrefixOf_iff_prefix

theorem jsStartsWith_true_iff (s p : String) :
    jsStartsWith s p = true ↔ p.data <+: s.data := by
  simp [jsStartsWith, isPrefixOf_eq_true_iff]

theorem alookup_eq_none_iff {α β : Type} [DecidableEq α] (l : List (α × β)) (a : α) :
    alookup l a = none ↔ ∀ e ∈ l, e.1 ≠ a := by
  induction l with
  | nil => simp [alookup]
  | cons e rest ih =>
    obtain ⟨k, v⟩ := e
    by_cases hk : k = a
    · subst hk
      simp [alookup]
    · simp [alookup, hk, ih]

theorem alookup_append_fresh {α β : Type} [DecidableEq α] (l : List (α × β)) (a : α) (v : β)
    (h : alookup l a = none) : alookup (l ++ [(a, v)]) a = some v := by
  induction l with
  | nil => simp [alookup]
  | cons e rest ih =>
    obtain ⟨k, w⟩ := e
    by_cases hk : k = a
    · rw [alookup, if_pos hk] at h
      exact absurd h (by simp)
    · rw [List.cons_append, alookup, if_neg hk]
      rw [alookup, if_neg hk] at h
      exact ih h

theorem eraseKey_append_fresh (l : List (String × PendingTool)) (a : String) (v : PendingTool)
    (h : alookup l a = none) : ApprovalManager.eraseKey (l ++ [(a, v)]) a = l := by
  induction l with
  | nil => simp [ApprovalManager.eraseKey, List.filter]
  | cons e rest ih =>
    obtain ⟨k, w⟩ := e
    by_cases hk : k = a
    · rw [alookup, if_pos hk] at h
      exact absurd h (by simp)
    · rw [alookup, if_neg hk] at h
      rw [List.cons_append, ApprovalManager.eraseKey, List.filter_cons]
      have : ((k, w).1 != a) = true := by simp [hk]
      rw [if_pos this]
      have := ih h
      rw [ApprovalManager.eraseKey] at this
      rw [this]

theorem lookupFs_fsSet (fs : Fs) (p r : List String) (n : FsNode) :
    lookupFs (fsSet fs p n) r = if p = r then some n else lookupFs fs r := rfl

theorem prefix_dropLast_of_proper {α : Type} {r p : List α} (h : r <+: p) (hne : r ≠ p) :
    r <+: p.dropLast := by
  obtain ⟨u, rfl⟩ := h
  cases u with
  | nil => exact absurd (List.append_nil r).symm hne
  | cons a us =>
    rw [List.dropLast_append_of_ne_nil _ (List.cons_ne_nil a us)]
    exact List.prefix_append _ _

theorem mem_pathInits : ∀ (p q : List String), q ∈ pathInits p ↔ q <+: p := by
  intro p
  induction p with
  | nil =>
    intro q
    simp [pathInits, List.prefix_nil]
  | cons a rest ih =>
    intro q
    simp only [pathInits, List.mem_cons, List.mem_map]
    constructor
    · rintro (rfl | ⟨q', hq', rfl⟩)
      · exact List.nil_prefix
      · exact List.cons_prefix_cons.mpr ⟨rfl, (ih q').mp hq'⟩
    · intro h
      cases q with
      | nil => exact Or.inl rfl
      | cons b q' =>
        obtain ⟨rfl, hq'⟩ := List.cons_prefix_cons.mp h
        exact Or.inr ⟨q', (ih q').mpr hq', rfl⟩

theorem mem_resolveSegs {x : String} :
    ∀ (l init : List String), x ∈ resolveSegs init l →
      x ∈ init ∨ (x ≠ "" ∧ x ≠ "." ∧ x ≠ "..") := by
  intro l
  induction l with
  | nil =>
    intro init h
    rw [resolveSegs] at h
    exact Or.inl h
  | cons s rest ih =>
    intro init h
    by_cases h1 : s = "" ∨ s = "."
    · rw [resolveSegs, if_pos h1] at h
      exact ih init h
    · by_cases h2 : s = ".."
      · rw [resolveSegs, if_neg h1, if_pos h2] at h
        rcases ih init.dropLast h with hm | hc
        · exact Or.inl (List.dropLast_subset init hm)
        · exact Or.inr hc
      · rw [resolveSegs, if_neg h1, if_neg h2] at h
        rcases ih (init ++ [s]) h with hm | hc
        · rcases List.mem_append.mp hm with hm | hm
          · exact Or.inl hm
          · push_neg at h1
            simp only [List.mem_singleton] at hm
            subst hm
            exact Or.inr ⟨h1.1, h1.2, h2⟩
        · exact Or.inr hc

theorem posixResolve_elems_clean {root : List String}
    (hr : "" ∉ root ∧ "." ∉ root ∧ ".." ∉ root) (up : String) :
    ∀ x ∈ posixResolve root up, x ≠ "" ∧ x ≠ "." ∧ x ≠ ".." := by
  intro x hx
  have hcase : x ∈ root ∨ (x ≠ "" ∧ x ≠ "." ∧ x ≠ "..") := by
    rw [posixResolve] at hx
    by_cases hs : jsStartsWith up "/" = true
    · rw [if_pos hs] at hx
      rcases mem_resolveSegs _ _ hx with hm | hc
      · exact absurd hm (List.not_mem_nil x)
      · exact Or.inr hc
    · rw [if_neg hs] at hx
      exact mem_resolveSegs _ _ hx
  rcases hcase with hm | hc
  · refine ⟨?_, ?_, ?_⟩ <;> intro heq <;> subst heq
    · exact hr.1 hm
    · exact hr.2.1 hm
    · exact hr.2.2 hm
  · exact hc

theorem relativeSegs_append : ∀ (root s : List String), relativeSegs root (root ++ s) = s := by
  intro root
  induction root with
  | nil => intro s; rfl
  | cons f fr ih =>
    intro s
    rw [List.cons_append, relativeSegs, if_pos rfl]
    exact ih s

theorem relativeSegs_cons_of_not_prefix :
    ∀ (root t : List String), ¬ root <+: t → ∃ l, relativeSegs root t = ".." :: l := by
  intro root
  induction root with
  | nil => intro t h; exact absurd List.nil_prefix h
  | cons f fr ih =>
    intro t h
    cases t with
    | nil =>
      exact ⟨List.replicate fr.length "..", by rw [relativeSegs, List.replicate_succ]⟩
    | cons x xs =>
      by_cases hf : f = x
      · subst hf
        have h' : ¬ fr <+: xs := fun hp => h (List.cons_prefix_cons.mpr ⟨rfl, hp⟩)
        obtain ⟨l, hl⟩ := ih xs h'
        exact ⟨l, by rw [relativeSegs, if_pos rfl]; exact hl⟩
      · refine ⟨List.replicate fr.length ".." ++ (x :: xs), ?_⟩
        rw [relativeSegs, if_neg hf, List.replicate_succ, List.cons_append]

theorem jsStartsWith_joinSegs_parent :
    ∀ (l : List String), jsStartsWith (joinSegs (".." :: l)) ".." = true := by
  intro l
  cases l with
  | nil => decide
  | cons x xs =>
    rw [jsStartsWith_true_iff]
    show (".." : String).data <+: ((".." ++ "/") ++ joinSegs (x :: xs)).data
    rw [String.data_append, String.data_append, List.append_assoc]
    exact List.prefix_append _ _

theorem joinSeg_clean (cur : List String) (x : String)
    (h : x ≠ "" ∧ x ≠ "." ∧ x ≠ "..") : joinSeg cur x = cur ++ [x] := by
  rw [joinSeg, if_neg h.2.2, if_neg (by push_neg; exact ⟨h.2.1, h.1⟩)]

/-- The symlink walk succeeds when no position along the chain is bound to a
symlink. -/
theorem walk_ok (fs : Fs) :
    ∀ (parts cur : List String),
      (∀ x ∈ parts, x ≠ "" ∧ x ≠ "." ∧ x ≠ "..") →
      (∀ t, t ≠ [] → t <+: parts → lookupFs fs (cur ++ t) ≠ some FsNode.symlink) →
      WorkspaceFS.walk fs cur parts = Except.ok () := by
  intro parts
  induction parts with
  | nil => intro cur _ _; rfl
  | cons x rest ih =>
    intro cur hclean hsafe
    have hx := hclean x (List.mem_cons_self x rest)
    rw [WorkspaceFS.walk]
    simp only [joinSeg_clean cur x hx]
    by_cases hex : fsExists fs (cur ++ [x]) = true
    · rw [if_pos hex]
      have hns : lookupFs fs (cur ++ [x]) ≠ some FsNode.symlink :=
        hsafe [x] (List.cons_ne_nil _ _) ⟨rest, rfl⟩
      have hrec : WorkspaceFS.walk fs (cur ++ [x]) rest = Except.ok () := by
        refine ih (cur ++ [x]) (fun y hy => hclean y (List.mem_cons_of_mem x hy)) ?_
        intro t ht hpre
        rw [List.append_assoc]
        refine hsafe (x :: t) (List.cons_ne_nil _ _) ?_
        exact List.cons_prefix_cons.mpr ⟨rfl, hpre⟩
      rcases hl : lookupFs fs (cur ++ [x]) with _ | n
      · rw [WorkspaceFS.assertNotLinkOrReparse, hl]
        exact hrec
      · cases n with
        | file c => rw [WorkspaceFS.assertNotLinkOrReparse, hl]; exact hrec
        | dir => rw [WorkspaceFS.assertNotLinkOrReparse, hl]; exact hrec
        | symlink => exact absurd hl hns
    · rw [if_neg hex]

/-- The symlink walk fails with `SymlinkNotAllowed` when some position along
the chain, all of whose predecessors exist, is bound to a symlink. -/
theorem walk_symlink (fs : Fs) :
    ∀ (t parts cur : List String),
      t ≠ [] → t <+: parts →
      (∀ x ∈ parts, x ≠ "" ∧ x ≠ "." ∧ x ≠ "..") →
      (∀ u, u ≠ [] → u <+: t → fsExists fs (cur ++ u) = true) →
      lookupFs fs (cur ++ t) = some FsNode.symlink →
      WorkspaceFS.walk fs cur parts = Except.error Reason.SymlinkNotAllowed := by
  intro t
  induction t with
  | nil => intro parts cur hne; exact absurd rfl hne
  | cons a t' ih =>
    intro parts cur _ hpre hclean hex hsym
    cases parts with
    | nil =>
      have := List.prefix_nil.mp hpre
      exact absurd this (List.cons_ne_nil _ _)
    | cons x rest =>
      obtain ⟨rfl, hpre'⟩ := List.cons_prefix_cons.mp hpre
      have ha := hclean a (List.mem_cons_self a rest)
      rw [WorkspaceFS.walk]
      simp only [joinSeg_clean cur a ha]
      have hexa : fsExists fs (cur ++ [a]) = true :=
        hex [a] (List.cons_ne_nil _ _) ⟨t', rfl⟩
      rw [if_pos hexa]
      by_cases hsa : lookupFs fs (cur ++ [a]) = some FsNode.symlink
      · rw [WorkspaceFS.assertNotLinkOrReparse, hsa]
      · cases t' with
        | nil => exact absurd (by simpa using hsym) hsa
        | cons b t'' =>
          have hrec : WorkspaceFS.walk fs (cur ++ [a]) rest =
              Except.error Reason.SymlinkNotAllowed := by
            refine ih rest (cur ++ [a]) (List.cons_ne_nil _ _) hpre'
              (fun y hy => hclean y (List.mem_cons_of_mem a hy)) ?_ ?_
            · intro u hu hupre
              rw [List.append_assoc]
              refine hex (a :: u) (List.cons_ne_nil _ _) ?_
              exact List.cons_prefix_cons.mpr ⟨rfl, hupre⟩
            · rw [List.append_assoc]
              exact hsym
          rcases hl : lookupFs fs (cur ++ [a]) with _ | n
          · rw [WorkspaceFS.assertNotLinkOrReparse, hl]
            exact hrec
          · cases n with
            | file c => rw [WorkspaceFS.assertNotLinkOrReparse, hl]; exact hrec
            | dir => rw [WorkspaceFS.assertNotLinkOrReparse, hl]; exact hrec
            | symlink => exact absurd hl hsa

theorem assertNot_ok {fs : Fs} {p : List String}
    (h : lookupFs fs p ≠ some FsNode.symlink) :
    WorkspaceFS.assertNotLinkOrReparse fs p = Except.ok () := by
  rcases hl : lookupFs fs p with _ | n
  · rw [WorkspaceFS.assertNotLinkOrReparse, hl]
  · cases n with
    | file c => rw [WorkspaceFS.assertNotLinkOrReparse, hl]
    | dir => rw [WorkspaceFS.assertNotLinkOrReparse, hl]
    | symlink => exact absurd hl h

theorem assertNot_symlink {fs : Fs} {p : List String}
    (h : lookupFs fs p = some FsNode.symlink) :
    WorkspaceFS.assertNotLinkOrReparse fs p = Except.error Reason.SymlinkNotAllowed := by
  rw [WorkspaceFS.assertNotLinkOrReparse, h]

/-- Check 1: an empty or whitespace-only user path. -/
theorem ensure_empty (fs : Fs) (root : List String) (up : String) (mode : Mode)
    (h1 : jsTrim up = "") :
    WorkspaceFS.ensureInsideWorkspace fs root up mode = (fs, Except.error Reason.EmptyPath) := by
  simp [WorkspaceFS.ensureInsideWorkspace, h1]

/-- Check 2: a win32-absolute spelling (which subsumes posix-absolute and
separator-led UNC spellings). -/
theorem ensure_absolute (fs : Fs) (root : List String) (up : String) (mode : Mode)
    (h1 : ¬ jsTrim up = "") (h2 : win32IsAbsolute up = true) :
    WorkspaceFS.ensureInsideWorkspace fs root up mode = (fs, Except.error Reason.AbsolutePath) := by
  simp [WorkspaceFS.ensureInsideWorkspace, h1, h2]

/-- Check 3: a drive-letter prefix. -/
theorem ensure_drive (fs : Fs) (root : List String) (up : String) (mode : Mode)
    (h1 : ¬ jsTrim up = "") (h2 : win32IsAbsolute up = false) (h3 : hasDrivePrefix up = true) :
    WorkspaceFS.ensureInsideWorkspace fs root up mode = (fs, Except.error Reason.DrivePath) := by
  simp [WorkspaceFS.ensureInsideWorkspace, h1, h2, h3]

/-- Check 4: a UNC-style double-separator prefix. -/
theorem ensure_unc (fs : Fs) (root : List String) (up : String) (mode : Mode)
    (h1 : ¬ jsTrim up = "") (h2 : win32IsAbsolute up = false) (h3 : hasDrivePrefix up = false)
    (h4 : (jsStartsWith up "\\\\" || jsStartsWith up "//") = true) :
    WorkspaceFS.ensureInsideWorkspace fs root up mode = (fs, Except.error Reason.UncPath) := by
  simp [WorkspaceFS.ensureInsideWorkspace, h1, h2, h3, h4]

/-- Check 5: the relative path from root to the resolution escapes. -/
theorem ensure_escape (fs : Fs) (root : List String) (up : String) (mode : Mode)
    (h1 : ¬ jsTrim up = "") (h2 : win32IsAbsolute up = false) (h3 : hasDrivePrefix up = false)
    (h4 : (jsStartsWith up "\\\\" || jsStartsWith up "//") = false)
    (h5 : (jsStartsWith (joinSegs (relativeSegs root (posixResolve root up))) ".." ||
           jsStartsWith (joinSegs (relativeSegs root (posixResolve root up))) "/") = true) :
    WorkspaceFS.ensureInsideWorkspace fs root up mode =
      (fs, Except.error Reason.PathEscapesWorkspace) := by
  simp [WorkspaceFS.ensureInsideWorkspace, h1, h2, h3, h4, h5]

/-- When every string check passes, the root exists and is not a symlink, the
result of resolution is decided by the symlink walk. -/
theorem ensure_of_walk {fs : Fs} {root : List String} {up : String} {mode : Mode}
    {r : Except Reason Unit}
    (h1 : ¬ jsTrim up = "") (h2 : win32IsAbsolute up = false) (h3 : hasDrivePrefix up = false)
    (h4 : (jsStartsWith up "\\\\" || jsStartsWith up "//") = false)
    (h5 : (jsStartsWith (joinSegs (relativeSegs root (posixResolve root up))) ".." ||
           jsStartsWith (joinSegs (relativeSegs root (posixResolve root up))) "/") = false)
    (hex : fsExists fs root = true)
    (hns : lookupFs fs root ≠ some FsNode.symlink)
    (hw : WorkspaceFS.walk fs root
        ((relativeSegs root
          (if mode = Mode.write then dirname (posixResolve root up)
           else posixResolve root up)).filter (fun s => s != "")) = r) :
    WorkspaceFS.ensureInsideWorkspace fs root up mode =
      match r with
      | .error e => (fs, .error e)
      | .ok _ => (fs, .ok (posixResolve root up)) := by
  have hA := assertNot_ok hns
  simp only [WorkspaceFS.ensureInsideWorkspace, h1, h2, h3, h4, h5, hex, hA,
    if_true, if_false, Bool.false_eq_true, ite_false, ite_true, reduceCtorEq, hw]
  cases r <;> rfl

/-- When every string check passes, the root exists but is itself a symlink,
resolution fails with `SymlinkNotAllowed` before the walk. -/
theorem ensure_root_symlink {fs : Fs} {root : List String} {up : String} {mode : Mode}
    (h1 : ¬ jsTrim up = "") (h2 : win32IsAbsolute up = false) (h3 : hasDrivePrefix up = false)
    (h4 : (jsStartsWith up "\\\\" || jsStartsWith up "//") = false)
    (h5 : (jsStartsWith (joinSegs (relativeSegs root (posixResolve root up))) ".." ||
           jsStartsWith (joinSegs (relativeSegs root (posixResolve root up))) "/") = false)
    (hex : fsExists fs root = true)
    (hs : lookupFs fs root = some FsNode.symlink) :
    WorkspaceFS.ensureInsideWorkspace fs root up mode =
      (fs, Except.error Reason.SymlinkNotAllowed) := by
  have hA := assertNot_symlink hs
  simp only [WorkspaceFS.ensureInsideWorkspace, h1, h2, h3, h4, h5, hex, hA,
    if_true, if_false, Bool.false_eq_true, ite_false, ite_true, reduceCtorEq]

/-- Inverting a successful resolution: every string check passed and the
result is the posix resolution of the user path against the root. -/
theorem ensure_ok_inversion {fs fs' : Fs} {root : List String} {up : String} {mode : Mode}
    {p : List String}
    (h : WorkspaceFS.ensureInsideWorkspace fs root up mode = (fs', Except.ok p)) :
    ¬ jsTrim up = "" ∧ win32IsAbsolute up = false ∧ hasDrivePrefix up = false ∧
    (jsStartsWith up "\\\\" || jsStartsWith up "//") = false ∧
    (jsStartsWith (joinSegs (relativeSegs root (posixResolve root up))) ".." ||
     jsStartsWith (joinSegs (relativeSegs root (posixResolve root up))) "/") = false ∧
    p = posixResolve root up := by
  by_cases h1 : jsTrim up = ""
  · rw [ensure_empty fs root up mode h1] at h
    exact absurd h (by simp)
  by_cases h2 : win32IsAbsolute up = true
  · rw [ensure_absolute fs root up mode h1 h2] at h
    exact absurd h (by simp)
  have h2' : win32IsAbsolute up = false := by simpa using h2
  by_cases h3 : hasDrivePrefix up = true
  · rw [ensure_drive fs root up mode h1 h2' h3] at h
    exact absurd h (by simp)
  have h3' : hasDrivePrefix up = false := by simpa using h3
  by_cases h4 : (jsStartsWith up "\\\\" || jsStartsWith up "//") = true
  · rw [ensure_unc fs root up mode h1 h2' h3' h4] at h
    exact absurd h (by simp)
  have h4' : (jsStartsWith up "\\\\" || jsStartsWith up "//") = false := by simpa using h4
  by_cases h5 : (jsStartsWith (joinSegs (relativeSegs root (posixResolve root up))) ".." ||
      jsStartsWith (joinSegs (relativeSegs root (posixResolve root up))) "/") = true
  · rw [ensure_escape fs root up mode h1 h2' h3' h4' h5] at h
    exact absurd h (by simp)
  have h5' : (jsStartsWith (joinSegs (relativeSegs root (posixResolve root up))) ".." ||
      jsStartsWith (joinSegs (relativeSegs root (posixResolve root up))) "/") = false := by
    simpa using h5
  refine ⟨h1, h2', h3', h4', h5', ?_⟩
  simp only [WorkspaceFS.ensureInsideWorkspace, h1, h2', h3', h4', h5',
    if_true, if_false, Bool.false_eq_true, ite_false, ite_true, reduceCtorEq] at h
  rcases hA : WorkspaceFS.assertNotLinkOrReparse
      (if fsExists fs root = true then fs else mkdirp fs root) root with e | u
  · rw [hA] at h
    exact absurd h (by simp)
  · rw [hA] at h
    rcases hW : WorkspaceFS.walk (if fsExists fs root = true then fs else mkdirp fs root) root
        ((relativeSegs root
          (if mode = Mode.write then dirname (posixResolve root up)
           else posixResolve root up)).filter (fun s => s != "")) with e | u
    · rw [hW] at h
      exact absurd h (by simp)
    · rw [hW] at h
      have h' := congrArg Prod.snd h
      simpa using h'.symm

/-- Auxiliary: membership in the resolution target checked by the walk
(the target itself, or its parent for writes) yields clean segments. -/
theorem target_elems_clean {root : List String}
    (hr : "" ∉ root ∧ "." ∉ root ∧ ".." ∉ root) (up : String) (mode : Mode) :
    ∀ x ∈ (if mode = Mode.write then dirname (posixResolve root up)
           else posixResolve root up),
      x ≠ "" ∧ x ≠ "." ∧ x ≠ ".." := by
  intro x hx
  by_cases hm : mode = Mode.write
  · rw [if_pos hm] at hx
    exact posixResolve_elems_clean hr up x (List.dropLast_subset _ hx)
  · rw [if_neg hm] at hx
    exact posixResolve_elems_clean hr up x hx

/-- `mkdirpGo` succeeds when every listed path is absent or a directory, makes
every listed path a directory, and leaves everything else untouched. -/
theorem mkdirpGo_spec :
    ∀ (l : List (List String)) (fs : Fs),
      (∀ q ∈ l, lookupFs fs q = none ∨ lookupFs fs q = some FsNode.dir) →
      ∃ fs2, mkdirpGo fs l = some fs2 ∧
        (∀ q ∈ l, lookupFs fs2 q = some FsNode.dir) ∧
        (∀ r, r ∉ l → lookupFs fs2 r = lookupFs fs r) := by
  intro l
  induction l with
  | nil =>
    intro fs _
    exact ⟨fs, rfl, by simp, fun r _ => rfl⟩
  | cons q0 rest ih =>
    intro fs h
    rcases h q0 (List.mem_cons_self q0 rest) with h0 | h0
    · have hrest : ∀ q ∈ rest,
          lookupFs (fsSet fs q0 .dir) q = none ∨
          lookupFs (fsSet fs q0 .dir) q = some FsNode.dir := by
        intro q hq
        rw [lookupFs_fsSet]
        by_cases hq0 : q0 = q
        · rw [if_pos hq0]; exact Or.inr rfl
        · rw [if_neg hq0]; exact h q (List.mem_cons_of_mem q0 hq)
      obtain ⟨fs2, hgo, hdirs, hoth⟩ := ih (fsSet fs q0 .dir) hrest
      refine ⟨fs2, ?_, ?_, ?_⟩
      · rw [mkdirpGo, h0]
        exact hgo
      · intro q hq
        rcases List.mem_cons.mp hq with rfl | hq
        · by_cases hmem : q ∈ rest
          · exact hdirs q hmem
          · rw [hoth q hmem, lookupFs_fsSet, if_pos rfl]
        · exact hdirs q hq
      · intro r hr
        rw [List.mem_cons] at hr
        push_neg at hr
        rw [hoth r hr.2, lookupFs_fsSet, if_neg (fun he => hr.1 he.symm)]
    · obtain ⟨fs2, hgo, hdirs, hoth⟩ :=
        ih fs (fun q hq => h q (List.mem_cons_of_mem q0 hq))
      refine ⟨fs2, ?_, ?_, ?_⟩
      · rw [mkdirpGo, h0]
        exact hgo
      · intro q hq
        rcases List.mem_cons.mp hq with rfl | hq
        · by_cases hmem : q ∈ rest
          · exact hdirs q hmem
          · rw [hoth q hmem]; exact h0
        · exact hdirs q hq
      · intro r hr
        rw [List.mem_cons] at hr
        push_neg at hr
        exact hoth r hr.2

/-! ## Claims -/

/-- C1: whenever `ensureInsideWorkspace` succeeds for any mode, the resolved
path lies inside the workspace root: the relative path from root to it does
not begin with a parent-directory segment, does not start with ".." at all,
and is not absolute; and conversely any user path whose resolution falls
outside the root (passing the earlier spelling checks) is rejected with
`PathEscapesWorkspace` before any filesystem access. -/
theorem C1_resolution_confined (fs fs' : Fs) (root : List String) (up : String) (mode : Mode) :
    (∀ p, WorkspaceFS.ensureInsideWorkspace fs root up mode = (fs', Except.ok p) →
        root <+: p ∧ (relativeSegs root p).head? ≠ some ".." ∧
        jsStartsWith (joinSegs (relativeSegs root p)) ".." = false ∧
        jsStartsWith (joinSegs (relativeSegs root p)) "/" = false) ∧
    (¬ root <+: posixResolve root up → ¬ jsTrim up = "" → win32IsAbsolute up = false →
     hasDrivePrefix up = false → (jsStartsWith up "\\\\" || jsStartsWith up "//") = false →
     WorkspaceFS.ensureInsideWorkspace fs root up mode =
       (fs, Except.error Reason.PathEscapesWorkspace)) := by
  constructor
  · intro p h
    obtain ⟨h1, h2, h3, h4, h5, hp⟩ := ensure_ok_inversion h
    subst hp
    rw [Bool.or_eq_false_iff] at h5
    have hroot : root <+: posixResolve root up := by
      by_contra hnp
      obtain ⟨l, hl⟩ := relativeSegs_cons_of_not_prefix root _ hnp
      have hsw := jsStartsWith_joinSegs_parent l
      rw [← hl] at hsw
      exact absurd h5.1 (by simp [hsw])
    refine ⟨hroot, ?_, h5.1, h5.2⟩
    intro hh
    rcases hsegs : relativeSegs root (posixResolve root up) with _ | ⟨s, l⟩
    · rw [hsegs] at hh
      exact absurd hh (by simp)
    · rw [hsegs] at hh
      have hs : s = ".." := by simpa using hh
      subst hs
      have hsw := jsStartsWith_joinSegs_parent l
      rw [← hsegs] at hsw
      exact absurd h5.1 (by simp [hsw])
  · intro hnp h1 h2 h3 h4
    obtain ⟨l, hl⟩ := relativeSegs_cons_of_not_prefix root _ hnp
    apply ensure_escape fs root up mode h1 h2 h3 h4
    rw [hl]
    simp [jsStartsWith_joinSegs_parent l]

/-- Witness for C1: a relative file path resolves inside the root and enjoys
the stated containment facts, while "../outside" is rejected with
`PathEscapesWorkspace`. -/
theorem C1_resolution_confined_witness :
    ((["ws"] : List String) <+: ["ws", "a.txt"] ∧
     (relativeSegs ["ws"] ["ws", "a.txt"]).head? ≠ some ".." ∧
     jsStartsWith (joinSegs (relativeSegs ["ws"] ["ws", "a.txt"])) ".." = false ∧
     jsStartsWith (joinSegs (relativeSegs ["ws"] ["ws", "a.txt"])) "/" = false) ∧
    WorkspaceFS.ensureInsideWorkspace [] ["ws"] "../outside" Mode.read =
      ([], Except.error Reason.PathEscapesWorkspace) := by
  constructor
  · exact (C1_resolution_confined [(["ws"], FsNode.dir)] [(["ws"], FsNode.dir)]
      ["ws"] "a.txt" Mode.read).1 ["ws", "a.txt"] (by decide)
  · exact (C1_resolution_confined [] [] ["ws"] "../outside" Mode.read).2
      (by decide) (by decide) (by decide) (by decide) (by decide)

/-- C4: the rejection checks of path resolution run in the fixed order
EmptyPath, AbsolutePath, DrivePath, UncPath, PathEscapesWorkspace,
SymlinkNotAllowed, first match winning with a distinct reason; the first
five checks are decided purely from the strings, return the filesystem
untouched, and a SymlinkNotAllowed outcome implies all five string checks
had passed. -/
theorem C4_check_order (fs : Fs) (root : List String) (up : String) (mode : Mode) :
    (jsTrim up = "" →
      WorkspaceFS.ensureInsideWorkspace fs root up mode = (fs, Except.error Reason.EmptyPath)) ∧
    (¬ jsTrim up = "" → win32IsAbsolute up = true →
      WorkspaceFS.ensureInsideWorkspace fs root up mode = (fs, Except.error Reason.AbsolutePath)) ∧
    (¬ jsTrim up = "" → win32IsAbsolute up = false → hasDrivePrefix up = true →
      WorkspaceFS.ensureInsideWorkspace fs root up mode = (fs, Except.error Reason.DrivePath)) ∧
    (¬ jsTrim up = "" → win32IsAbsolute up = false → hasDrivePrefix up = false →
      (jsStartsWith up "\\\\" || jsStartsWith up "//") = true →
      WorkspaceFS.ensureInsideWorkspace fs root up mode = (fs, Except.error Reason.UncPath)) ∧
    (¬ jsTrim up = "" → win32IsAbsolute up = false → hasDrivePrefix up = false →
      (jsStartsWith up "\\\\" || jsStartsWith up "//") = false →
      (jsStartsWith (joinSegs (relativeSegs root (posixResolve root up))) ".." ||
       jsStartsWith (joinSegs (relativeSegs root (posixResolve root up))) "/") = true →
      WorkspaceFS.ensureInsideWorkspace fs root up mode =
        (fs, Except.error Reason.PathEscapesWorkspace)) ∧
    ((WorkspaceFS.ensureInsideWorkspace fs root up mode).2 =
        Except.error Reason.SymlinkNotAllowed →
      ¬ jsTrim up = "" ∧ win32IsAbsolute up = false ∧ hasDrivePrefix up = false ∧
      (jsStartsWith up "\\\\" || jsStartsWith up "//") = false ∧
      (jsStartsWith (joinSegs (relativeSegs root (posixResolve root up))) ".." ||
       jsStartsWith (joinSegs (relativeSegs root (posixResolve root up))) "/") = false) := by
  refine ⟨ensure_empty fs root up mode,
          ensure_absolute fs root up mode,
          ensure_drive fs root up mode,
          ensure_unc fs root up mode,
          ensure_escape fs root up mode, ?_⟩
  intro hS
  by_cases h1 : jsTrim up = ""
  · rw [ensure_empty fs root up mode h1] at hS
    exact absurd hS (by simp)
  by_cases h2 : win32IsAbsolute up = true
  · rw [ensure_absolute fs root up mode h1 h2] at hS
    exact absurd hS (by simp)
  have h2' : win32IsAbsolute up = false := by simpa using h2
  by_cases h3 : hasDrivePrefix up = true
  · rw [ensure_drive fs root up mode h1 h2' h3] at hS
    exact absurd hS (by simp)
  have h3' : hasDrivePrefix up = false := by simpa using h3
  by_cases h4 : (jsStartsWith up "\\\\" || jsStartsWith up "//") = true
  · rw [ensure_unc fs root up mode h1 h2' h3' h4] at hS
    exact absurd hS (by simp)
  have h4' : (jsStartsWith up "\\\\" || jsStartsWith up "//") = false := by simpa using h4
  by_cases h5 : (jsStartsWith (joinSegs (relativeSegs root (posixResolve root up))) ".." ||
      jsStartsWith (joinSegs (relativeSegs root (posixResolve root up))) "/") = true
  · rw [ensure_escape fs root up mode h1 h2' h3' h4' h5] at hS
    exact absurd hS (by simp)
  have h5' : (jsStartsWith (joinSegs (relativeSegs root (posixResolve root up))) ".." ||
      jsStartsWith (joinSegs (relativeSegs root (posixResolve root up))) "/") = false := by
    simpa using h5
  exact ⟨h1, h2', h3', h4', h5'⟩

/-- Concrete filesystem used in the C4 witness: a root directory containing a
symlink. -/
def fsC4 : Fs := [(["ws"], FsNode.dir), (["ws", "lnk"], FsNode.symlink)]

/-- Witness for C4: each reachable check fires at a concrete input, in order,
selecting its distinct reason, and a SymlinkNotAllowed outcome certifies the
earlier checks passed. -/
theorem C4_check_order_witness :
    WorkspaceFS.ensureInsideWorkspace [] ["ws"] "   " Mode.read =
      ([], Except.error Reason.EmptyPath) ∧
    WorkspaceFS.ensureInsideWorkspace [] ["ws"] "/etc/passwd" Mode.read =
      ([], Except.error Reason.AbsolutePath) ∧
    WorkspaceFS.ensureInsideWorkspace [] ["ws"] "C:foo" Mode.write =
      ([], Except.error Reason.DrivePath) ∧
    WorkspaceFS.ensureInsideWorkspace [] ["ws"] "../x" Mode.list =
      ([], Except.error Reason.PathEscapesWorkspace) ∧
    (¬ jsTrim "lnk" = "" ∧ win32IsAbsolute "lnk" = false ∧ hasDrivePrefix "lnk" = false ∧
     (jsStartsWith "lnk" "\\\\" || jsStartsWith "lnk" "//") = false ∧
     (jsStartsWith (joinSegs (relativeSegs ["ws"] (posixResolve ["ws"] "lnk"))) ".." ||
      jsStartsWith (joinSegs (relativeSegs ["ws"] (posixResolve ["ws"] "lnk"))) "/") = false) := by
  refine ⟨?_, ?_, ?_, ?_, ?_⟩
  · exact (C4_check_order [] ["ws"] "   " Mode.read).1 (by decide)
  · exact (C4_check_order [] ["ws"] "/etc/passwd" Mode.read).2.1 (by decide) (by decide)
  · exact (C4_check_order [] ["ws"] "C:foo" Mode.write).2.2.1 (by decide) (by decide) (by decide)
  · exact (C4_check_order [] ["ws"] "../x" Mode.list).2.2.2.2.1 (by decide) (by decide)
      (by decide) (by decide) (by decide)
  · exact (C4_check_order fsC4 ["ws"] "lnk" Mode.read).2.2.2.2.2 (by decide)

/-- C2 (amended): a symlink strictly below the workspace root that lies on the
checked chain — the target and its ancestors for read/list/delete, only the
target's parent chain for write — makes resolution fail with
`SymlinkNotAllowed`, provided the path passes the string checks, the root
exists, and every component between root and the symlink exists.  (A symlink
at the target itself does NOT make write-mode resolution fail: see the
counterexample.) -/
theorem C2_symlink_ancestors_rejected (fs : Fs) (root : List String) (up : String)
    (mode : Mode) (q : List String)
    (hr : "" ∉ root ∧ "." ∉ root ∧ ".." ∉ root)
    (h1 : ¬ jsTrim up = "") (h2 : win32IsAbsolute up = false)
    (h3 : hasDrivePrefix up = false)
    (h4 : (jsStartsWith up "\\\\" || jsStartsWith up "//") = false)
    (h5 : (jsStartsWith (joinSegs (relativeSegs root (posixResolve root up))) ".." ||
           jsStartsWith (joinSegs (relativeSegs root (posixResolve root up))) "/") = false)
    (hex : fsExists fs root = true)
    (hq1 : root <+: q) (hq2 : q ≠ root)
    (hq3 : q <+: (if mode = Mode.write then dirname (posixResolve root up)
                  else posixResolve root up))
    (hchain : ∀ r', root <+: r' → r' <+: q → r' ≠ root → fsExists fs r' = true)
    (hsym : lookupFs fs q = some FsNode.symlink) :
    WorkspaceFS.ensureInsideWorkspace fs root up mode =
      (fs, Except.error Reason.SymlinkNotAllowed) := by
  by_cases hrs : lookupFs fs root = some FsNode.symlink
  · exact ensure_root_symlink h1 h2 h3 h4 h5 hex hrs
  · have hroot_tgt : root <+: (if mode = Mode.write then dirname (posixResolve root up)
        else posixResolve root up) := hq1.trans hq3
    obtain ⟨w, hw⟩ := hroot_tgt
    obtain ⟨t, hqrt⟩ := hq1
    have ht_ne : t ≠ [] := by
      intro h0
      subst h0
      exact hq2 (by rw [← hqrt, List.append_nil])
    have htw : t <+: w := by
      have : root ++ t <+: root ++ w := by rw [hqrt, hw]; exact hq3
      exact (List.prefix_append_right_inj root).mp this
    have hcw : ∀ x ∈ w, x ≠ "" ∧ x ≠ "." ∧ x ≠ ".." := by
      intro x hx
      have hxt : x ∈ (if mode = Mode.write then dirname (posixResolve root up)
          else posixResolve root up) := by
        rw [← hw]
        exact List.mem_append.mpr (Or.inr hx)
      exact target_elems_clean hr up mode x hxt
    have hfilter : (relativeSegs root (if mode = Mode.write then dirname (posixResolve root up)
        else posixResolve root up)).filter (fun s => s != "") = w := by
      rw [← hw, relativeSegs_append]
      exact List.filter_eq_self.mpr (fun a ha => by simp [(hcw a ha).1])
    have hwalk : WorkspaceFS.walk fs root
        ((relativeSegs root (if mode = Mode.write then dirname (posixResolve root up)
          else posixResolve root up)).filter (fun s => s != "")) =
        Except.error Reason.SymlinkNotAllowed := by
      rw [hfilter]
      refine walk_symlink fs t w root ht_ne htw hcw ?_ ?_
      · intro u hu hupre
        refine hchain (root ++ u) (List.prefix_append root u) ?_ ?_
        · rw [← hqrt]
          exact (List.prefix_append_right_inj root).mpr hupre
        · intro he
          have hnil : u = [] := by simpa using congrArg List.length he
          exact hu hnil
      · rw [hqrt]
        exact hsym
    have := ensure_of_walk h1 h2 h3 h4 h5 hex hrs hwalk
    exact this

/-- Concrete filesystem for the C2 counterexample and witness: the workspace
root is a directory and "lnk" directly below it is a symlink. -/
def fsC2 : Fs := [(["ws"], FsNode.dir), (["ws", "lnk"], FsNode.symlink)]

/-- Counterexample to C2 as stated: with the target itself a symlink, write
mode does NOT fail — resolution succeeds, because the write-mode walk checks
only the parent chain.  (Read mode on the same path does fail, per the
amended C2.) -/
theorem C2_counterexample :
    lookupFs fsC2 ["ws", "lnk"] = some FsNode.symlink ∧
    WorkspaceFS.ensureInsideWorkspace fsC2 ["ws"] "lnk" Mode.write =
      (fsC2, Except.ok ["ws", "lnk"]) := by
  constructor
  · decide
  · decide

/-- Witness for the amended C2: the same symlink rejects read, list and
delete resolution, and a symlink ancestor ("lnk/inner", parent chain
containing the symlink) rejects write resolution too. -/
theorem C2_symlink_ancestors_rejected_witness :
    WorkspaceFS.ensureInsideWorkspace fsC2 ["ws"] "lnk" Mode.read =
      (fsC2, Except.error Reason.SymlinkNotAllowed) ∧
    WorkspaceFS.ensureInsideWorkspace fsC2 ["ws"] "lnk" Mode.list =
      (fsC2, Except.error Reason.SymlinkNotAllowed) ∧
    WorkspaceFS.ensureInsideWorkspace fsC2 ["ws"] "lnk" Mode.delete =
      (fsC2, Except.error Reason.SymlinkNotAllowed) ∧
    WorkspaceFS.ensureInsideWorkspace fsC2 ["ws"] "lnk/inner" Mode.write =
      (fsC2, Except.error Reason.SymlinkNotAllowed) := by
  refine ⟨?_, ?_, ?_, ?_⟩
  · exact C2_symlink_ancestors_rejected fsC2 ["ws"] "lnk" Mode.read ["ws", "lnk"]
      (by decide) (by decide) (by decide) (by decide) (by decide) (by decide) (by decide)
      ⟨["lnk"], rfl⟩ (by decide) (by decide)
      (by intro r' h1' h2' h3'
          have hr' : r' ∈ pathInits ["ws", "lnk"] := (mem_pathInits _ _).mpr h2'
          have hcases : r' = [] ∨ r' = ["ws"] ∨ r' = ["ws", "lnk"] := by
            simpa [pathInits] using hr'
          rcases hcases with rfl | rfl | rfl
          · exact absurd h1' (by decide)
          · exact absurd rfl h3'
          · decide)
      (by decide)
  · exact C2_symlink_ancestors_rejected fsC2 ["ws"] "lnk" Mode.list ["ws", "lnk"]
      (by decide) (by decide) (by decide) (by decide) (by decide) (by decide) (by decide)
      ⟨["lnk"], rfl⟩ (by decide) (by decide)
      (by intro r' h1' h2' h3'
          have hr' : r' ∈ pathInits ["ws", "lnk"] := (mem_pathInits _ _).mpr h2'
          have hcases : r' = [] ∨ r' = ["ws"] ∨ r' = ["ws", "lnk"] := by
            simpa [pathInits] using hr'
          rcases hcases with rfl | rfl | rfl
          · exact absurd h1' (by decide)
          · exact absurd rfl h3'
          · decide)
      (by decide)
  · exact C2_symlink_ancestors_rejected fsC2 ["ws"] "lnk" Mode.delete ["ws", "lnk"]
      (by decide) (by decide) (by decide) (by decide) (by decide) (by decide) (by decide)
      ⟨["lnk"], rfl⟩ (by decide) (by decide)
      (by intro r' h1' h2' h3'
          have hr' : r' ∈ pathInits ["ws", "lnk"] := (mem_pathInits _ _).mpr h2'
          have hcases : r' = [] ∨ r' = ["ws"] ∨ r' = ["ws", "lnk"] := by
            simpa [pathInits] using hr'
          rcases hcases with rfl | rfl | rfl
          · exact absurd h1' (by decide)
          · exact absurd rfl h3'
          · decide)
      (by decide)
  · exact C2_symlink_ancestors_rejected fsC2 ["ws"] "lnk/inner" Mode.write ["ws", "lnk"]
      (by decide) (by decide) (by decide) (by decide) (by decide) (by decide) (by decide)
      ⟨["lnk"], rfl⟩ (by decide) (by decide)
      (by intro r' h1' h2' h3'
          have hr' : r' ∈ pathInits ["ws", "lnk"] := (mem_pathInits _ _).mpr h2'
          have hcases : r' = [] ∨ r' = ["ws"] ∨ r' = ["ws", "lnk"] := by
            simpa [pathInits] using hr'
          rcases hcases with rfl | rfl | rfl
          · exact absurd h1' (by decide)
          · exact absurd rfl h3'
          · decide)
      (by decide)

/-- C5: a pending approval id is resolved at most once: after submit, approve
returns the original record and removes it from list(); a second approve on
the same id returns absent with no side effect; reject on an unknown or
already-resolved id returns false. -/
theorem C5_resolve_at_most_once (m : ApprovalManager) (id tool : String)
    (args : ToolArgs) (now : String)
    (hfresh : alookup m.pending id = none) :
    (((m.add id tool args now).1.approve id).1 =
        some ⟨id, tool, args, now⟩ ∧
     ((m.add id tool args now).1.approve id).2.pending = m.pending ∧
     ((m.add id tool args now).1.approve id).2.list = m.list ∧
     (((m.add id tool args now).1.approve id).2.approve id) =
        (none, ((m.add id tool args now).1.approve id).2)) ∧
    (∀ m' : ApprovalManager, ∀ i, alookup m'.pending i = none →
       m'.reject i = (false, m')) := by
  have hlook : alookup ((m.add id tool args now).1.pending) id =
      some ⟨id, tool, args, now⟩ := by
    show alookup (m.pending ++ [(id, ⟨id, tool, args, now⟩)]) id = _
    exact alookup_append_fresh m.pending id _ hfresh
  have herase : ApprovalManager.eraseKey ((m.add id tool args now).1.pending) id =
      m.pending := by
    show ApprovalManager.eraseKey (m.pending ++ [(id, ⟨id, tool, args, now⟩)]) id = _
    exact eraseKey_append_fresh m.pending id _ hfresh
  constructor
  · have happ : (m.add id tool args now).1.approve id =
        (some ⟨id, tool, args, now⟩,
         { (m.add id tool args now).1 with
            pending := m.pending,
            calls := (m.add id tool args now).1.calls ++
              (m.add id tool args now).1.listeners.map (fun l => (l, id, true)) }) := by
      rw [ApprovalManager.approve, hlook, herase]
    refine ⟨by rw [happ], by rw [happ], ?_, ?_⟩
    · simp [happ, ApprovalManager.list]
    · rw [happ, ApprovalManager.approve, hfresh]
  · intro m' i hi
    rw [ApprovalManager.reject, hi]

/-- Witness for C5 at a concrete ledger. -/
theorem C5_resolve_at_most_once_witness :
    ((ApprovalManager.empty.add "id-1" "file.write" (ToolArgs.writeA "a.txt" "hi")
        "t0").1.approve "id-1").1 =
      some ⟨"id-1", "file.write", ToolArgs.writeA "a.txt" "hi", "t0"⟩ ∧
    ((ApprovalManager.empty.add "id-1" "file.write" (ToolArgs.writeA "a.txt" "hi")
        "t0").1.approve "id-1").2.list = [] ∧
    ApprovalManager.empty.reject "zz" = (false, ApprovalManager.empty) := by
  have h := C5_resolve_at_most_once ApprovalManager.empty "id-1" "file.write"
    (ToolArgs.writeA "a.txt" "hi") "t0" (by decide)
  exact ⟨h.1.1, h.1.2.2.1, h.2 ApprovalManager.empty "zz" (by decide)⟩

/-- Counting a tagged copy of a listener token in the mapped listener list:
for a duplicate-free token list each token occurs exactly once. -/
theorem count_map_pair_eq_one (L : List Nat) (hnd : L.Nodup)
    (l : Nat) (hl : l ∈ L) (id : String) (b : Bool) :
    ((L.map (fun l' => ((l', id, b) : Nat × String × Bool))).count (l, id, b)) = 1 := by
  induction L with
  | nil => simp at hl
  | cons x xs ih =>
    rw [List.nodup_cons] at hnd
    rcases List.mem_cons.mp hl with rfl | hmem
    · rw [List.map_cons, List.count_cons]
      have h0 : ((xs.map (fun l' => ((l', id, b) : Nat × String × Bool))).count (l, id, b)) = 0 := by
        rw [List.count_eq_zero]
        intro hc
        rcases List.mem_map.mp hc with ⟨z, hz, hez⟩
        have hzl : z = l := congrArg Prod.fst hez
        subst hzl
        exact hnd.1 hz
      rw [h0]
      simp
    · rw [List.map_cons, List.count_cons, ih hnd.2 hmem]
      have hne : ¬ ((l, id, b) = ((x, id, b) : Nat × String × Bool)) := by
        intro he
        have hlx : l = x := congrArg Prod.fst he
        subst hlx
        exact hnd.1 hmem
      simp [hne]
      intro he
      exact hnd.1 (he ▸ hmem)

/-- C7: every observer registered via onResolve is invoked exactly once per
resolution, in registration order, with the resolved id and the boolean
outcome (true on approve, false on reject); resolving an unknown id fires no
observer; observers registered after a resolution are never replayed for it. -/
theorem C7_observers_once (m : ApprovalManager) (id : String) :
    (∀ p, alookup m.pending id = some p →
       (m.approve id).2.calls = m.calls ++ m.listeners.map (fun l => (l, id, true)) ∧
       (m.reject id).2.calls = m.calls ++ m.listeners.map (fun l => (l, id, false)) ∧
       (m.listeners.Nodup →
          ∀ l ∈ m.listeners,
            (m.listeners.map (fun l' => (l', id, true))).count (l, id, true) = 1 ∧
            (m.listeners.map (fun l' => (l', id, false))).count (l, id, false) = 1)) ∧
    (alookup m.pending id = none → (m.approve id).2 = m ∧ (m.reject id).2 = m) ∧
    (m.onResolve.1.calls = m.calls) ∧
    ((∀ cl ∈ m.calls, cl.1 < m.nextListener) →
       ∀ cl ∈ m.onResolve.1.calls, cl.1 ≠ m.onResolve.2) := by
  refine ⟨?_, ?_, rfl, ?_⟩
  · intro p hp
    refine ⟨by rw [ApprovalManager.approve, hp], by rw [ApprovalManager.reject, hp], ?_⟩
    intro hnd l hl
    exact ⟨count_map_pair_eq_one m.listeners hnd l hl id true,
           count_map_pair_eq_one m.listeners hnd l hl id false⟩
  · intro hnone
    exact ⟨by rw [ApprovalManager.approve, hnone], by rw [ApprovalManager.reject, hnone]⟩
  · intro hbound cl hcl
    have : cl.1 < m.nextListener := hbound cl hcl
    intro he
    rw [he] at this
    exact absurd this (by simp [ApprovalManager.onResolve])

/-- Witness for C7: one registered observer, one approve and one reject, each
firing exactly once with the outcome; an observer registered afterwards has
no calls for the earlier resolution. -/
theorem C7_observers_once_witness :
    (((ApprovalManager.empty.onResolve).1.add "id-1" "file.write"
        (ToolArgs.writeA "a.txt" "hi") "t0").1.approve "id-1").2.calls =
      [(0, "id-1", true)] ∧
    (((ApprovalManager.empty.onResolve).1.add "id-2" "file.delete"
        (ToolArgs.deleteA "b.txt") "t0").1.reject "id-2").2.calls =
      [(0, "id-2", false)] ∧
    (∀ cl ∈ ((((ApprovalManager.empty.onResolve).1.add "id-1" "file.write"
        (ToolArgs.writeA "a.txt" "hi") "t0").1.approve "id-1").2.onResolve).1.calls,
      cl.1 ≠ ((((ApprovalManager.empty.onResolve).1.add "id-1" "file.write"
        (ToolArgs.writeA "a.txt" "hi") "t0").1.approve "id-1").2.onResolve).2) := by
  refine ⟨?_, ?_, ?_⟩
  · have h := (C7_observers_once
      ((ApprovalManager.empty.onResolve).1.add "id-1" "file.write"
        (ToolArgs.writeA "a.txt" "hi") "t0").1 "id-1").1
      ⟨"id-1", "file.write", ToolArgs.writeA "a.txt" "hi", "t0"⟩ (by decide)
    rw [h.1]
    decide
  · have h := (C7_observers_once
      ((ApprovalManager.empty.onResolve).1.add "id-2" "file.delete"
        (ToolArgs.deleteA "b.txt") "t0").1 "id-2").1
      ⟨"id-2", "file.delete", ToolArgs.deleteA "b.txt", "t0"⟩ (by decide)
    rw [h.2.1]
    decide
  · have h := (C7_observers_once
      ((((ApprovalManager.empty.onResolve).1.add "id-1" "file.write"
        (ToolArgs.writeA "a.txt" "hi") "t0").1.approve "id-1").2) "any").2.2.2
    exact h (by decide)

/-- C3: write and delete tool requests perform no workspace mutation at
request time — the workspace component of the server state is unchanged
unconditionally; a valid request only appends a PendingTool to the ledger
and answers with the pending-approval id; the corresponding WorkspaceStore
mutation runs exactly when approve is called on that id. -/
theorem C3_mutations_deferred (st : ServerState) (root : List String)
    (fid now p c : String) :
    ((handleFileWrite st fid now p c).1.fs = st.fs) ∧
    ((handleFileDelete st fid now p).1.fs = st.fs) ∧
    (p ≠ "" → String.utf8ByteSize c ≤ MAX_WRITE_BYTES → st.auditOk = true →
      (handleFileWrite st fid now p c).2 = HttpOut.pendingResp 200 fid "Approval required" ∧
      (handleFileWrite st fid now p c).1.am.pending =
        st.am.pending ++ [(fid, ⟨fid, "file.write", ToolArgs.writeA p c, now⟩)]) ∧
    (p ≠ "" → st.auditOk = true →
      (handleFileDelete st fid now p).2 = HttpOut.pendingResp 200 fid "Approval required" ∧
      (handleFileDelete st fid now p).1.am.pending =
        st.am.pending ++ [(fid, ⟨fid, "file.delete", ToolArgs.deleteA p, now⟩)]) ∧
    (∀ pt, fid ≠ "" → alookup st.am.pending fid = some pt → pt.tool = "file.write" →
      (handleApprovals st root fid "approve").1.fs =
        (FileTools.write st.fs root pt.args.path pt.args.content).1) ∧
    (∀ pt, fid ≠ "" → alookup st.am.pending fid = some pt → pt.tool = "file.delete" →
      (handleApprovals st root fid "approve").1.fs =
        (FileTools.delete st.fs root pt.args.path).1) := by
  refine ⟨?_, ?_, ?_, ?_, ?_, ?_⟩
  · by_cases hp : p = ""
    · simp [handleFileWrite, hp]
    · by_cases hsz : String.utf8ByteSize c > MAX_WRITE_BYTES
      · simp [handleFileWrite, hp, hsz]
      · by_cases ha : st.auditOk
        · simp [handleFileWrite, hp, hsz, ApprovalManager.add, auditLog, ha]
        · simp [handleFileWrite, hp, hsz, ApprovalManager.add, auditLog, ha]
  · by_cases hp : p = ""
    · simp [handleFileDelete, hp]
    · by_cases ha : st.auditOk
      · simp [handleFileDelete, hp, ApprovalManager.add, auditLog, ha]
      · simp [handleFileDelete, hp, ApprovalManager.add, auditLog, ha]
  · intro hp hsz ha
    have hsz' : ¬ String.utf8ByteSize c > MAX_WRITE_BYTES := by omega
    constructor
    · simp [handleFileWrite, hp, hsz', ApprovalManager.add, auditLog, ha]
    · simp [handleFileWrite, hp, hsz', ApprovalManager.add, auditLog, ha]
  · intro hp ha
    constructor
    · simp [handleFileDelete, hp, ApprovalManager.add, auditLog, ha]
    · simp [handleFileDelete, hp, ApprovalManager.add, auditLog, ha]
  · intro pt hid hpt htool
    rcases he : FileTools.write st.fs root pt.args.path pt.args.content with ⟨fs1, out⟩
    by_cases ha : st.auditOk
    · simp [handleApprovals, hid, ApprovalManager.approve, hpt, htool, he, auditLog, ha]
    · simp [handleApprovals, hid, ApprovalManager.approve, hpt, htool, he, auditLog, ha]
  · intro pt hid hpt htool
    have htool' : ¬ pt.tool = "file.write" := by
      rw [htool]
      decide
    rcases he : FileTools.delete st.fs root pt.args.path with ⟨fs1, out⟩
    by_cases ha : st.auditOk
    · simp [handleApprovals, hid, ApprovalManager.approve, hpt, htool, htool', he,
        auditLog, ha]
    · simp [handleApprovals, hid, ApprovalManager.approve, hpt, htool, htool', he,
        auditLog, ha]

/-- Concrete initial server state for the HTTP-layer witnesses. -/
def stW : ServerState := ⟨ApprovalManager.empty, [(["ws"], FsNode.dir)], [], true⟩

/-- Witness for C3: a concrete write request leaves the workspace untouched
and returns the pending id; approving that id performs exactly the deferred
WorkspaceStore write. -/
theorem C3_mutations_deferred_witness :
    (handleFileWrite stW "id-1" "t0" "a.txt" "hi").1.fs = stW.fs ∧
    (handleFileWrite stW "id-1" "t0" "a.txt" "hi").2 =
      HttpOut.pendingResp 200 "id-1" "Approval required" ∧
    (handleApprovals (handleFileWrite stW "id-1" "t0" "a.txt" "hi").1 ["ws"]
        "id-1" "approve").1.fs =
      (FileTools.write (handleFileWrite stW "id-1" "t0" "a.txt" "hi").1.fs ["ws"]
        "a.txt" "hi").1 := by
  refine ⟨(C3_mutations_deferred stW ["ws"] "id-1" "t0" "a.txt" "hi").1, ?_, ?_⟩
  · exact ((C3_mutations_deferred stW ["ws"] "id-1" "t0" "a.txt" "hi").2.2.1
      (by decide) (by decide) rfl).1
  · exact (C3_mutations_deferred (handleFileWrite stW "id-1" "t0" "a.txt" "hi").1
      ["ws"] "id-1" "t0" "a.txt" "hi").2.2.2.2.1
      ⟨"id-1", "file.write", ToolArgs.writeA "a.txt" "hi", "t0"⟩
      (by decide) (by decide) rfl

/-- C8 (amended): when the awaited audit append fails during an approved
mutation — write and delete alike — the workspace mutation is already
executed and is neither blocked nor rolled back, but the caller does NOT
receive the operation's own result: the handler's catch-all converts the
thrown audit error into a 500 response. -/
theorem C8_audit_failure_fails_response (st : ServerState) (root : List String)
    (id : String) (pt : PendingTool)
    (hid : id ≠ "") (hpt : alookup st.am.pending id = some pt)
    (ha : st.auditOk = false) :
    (pt.tool = "file.write" →
      (handleApprovals st root id "approve").1.fs =
        (FileTools.write st.fs root pt.args.path pt.args.content).1 ∧
      (handleApprovals st root id "approve").2 = HttpOut.errorResp 500 auditFailMsg) ∧
    (pt.tool = "file.delete" →
      (handleApprovals st root id "approve").1.fs =
        (FileTools.delete st.fs root pt.args.path).1 ∧
      (handleApprovals st root id "approve").2 = HttpOut.errorResp 500 auditFailMsg) ∧
    (∀ r, pt.tool = "file.write" ∨ pt.tool = "file.delete" →
      (handleApprovals st root id "approve").2 ≠ HttpOut.toolResp 200 r) := by
  refine ⟨?_, ?_, ?_⟩
  · intro htool
    rcases he : FileTools.write st.fs root pt.args.path pt.args.content with ⟨fs1, out⟩
    constructor
    · simp [handleApprovals, hid, ApprovalManager.approve, hpt, htool, he, auditLog, ha]
    · simp [handleApprovals, hid, ApprovalManager.approve, hpt, htool, he, auditLog, ha]
  · intro htool
    have htool' : ¬ pt.tool = "file.write" := by
      rw [htool]
      decide
    rcases he : FileTools.delete st.fs root pt.args.path with ⟨fs1, out⟩
    constructor
    · simp [handleApprovals, hid, ApprovalManager.approve, hpt, htool, htool', he,
        auditLog, ha]
    · simp [handleApprovals, hid, ApprovalManager.approve, hpt, htool, htool', he,
        auditLog, ha]
  · rintro r (htool | htool)
    · rcases he : FileTools.write st.fs root pt.args.path pt.args.content with ⟨fs1, out⟩
      simp [handleApprovals, hid, ApprovalManager.approve, hpt, htool, he, auditLog, ha]
    · have htool' : ¬ pt.tool = "file.write" := by
        rw [htool]
        decide
      rcases he : FileTools.delete st.fs root pt.args.path with ⟨fs1, out⟩
      simp [handleApprovals, hid, ApprovalManager.approve, hpt, htool, htool', he,
        auditLog, ha]

/-- Concrete state for the C8 counterexample: one pending approved write, an
audit sink that fails. -/
def stC8 : ServerState :=
  ⟨⟨[("id-1", ⟨"id-1", "file.write", ToolArgs.writeA "a.txt" "hi", "t0"⟩)], [], 0, []⟩,
   [(["ws"], FsNode.dir)], [], false⟩

/-- Counterexample to C8 as stated: with a failing audit sink, approving the
pending write executes the mutation (the file exists afterwards) yet the
caller receives a 500 error response instead of the operation's own result. -/
theorem C8_counterexample :
    (handleApprovals stC8 ["ws"] "id-1" "approve").2 =
      HttpOut.errorResp 500 auditFailMsg ∧
    (handleApprovals stC8 ["ws"] "id-1" "approve").2 ≠
      HttpOut.toolResp 200 (FileToolResult.ok (FileData.text "written")) ∧
    lookupFs (handleApprovals stC8 ["ws"] "id-1" "approve").1.fs ["ws", "a.txt"] =
      some (FsNode.file "hi") := by
  refine ⟨?_, ?_, ?_⟩
  · decide
  · decide
  · decide

/-- Concrete state with a pending approved delete of an existing file and a
failing audit sink. -/
def stC8d : ServerState :=
  ⟨⟨[("id-2", ⟨"id-2", "file.delete", ToolArgs.deleteA "a.txt", "t0"⟩)], [], 0, []⟩,
   [(["ws"], FsNode.dir), (["ws", "a.txt"], FsNode.file "old")], [], false⟩

/-- Witness for the amended C8 at concrete states: the approved write and the
approved delete each execute their mutation yet answer 500 when the audit
append fails. -/
theorem C8_audit_failure_fails_response_witness :
    ((handleApprovals stC8 ["ws"] "id-1" "approve").1.fs =
      (FileTools.write stC8.fs ["ws"] "a.txt" "hi").1 ∧
     (handleApprovals stC8 ["ws"] "id-1" "approve").2 =
      HttpOut.errorResp 500 auditFailMsg) ∧
    ((handleApprovals stC8d ["ws"] "id-2" "approve").1.fs =
      (FileTools.delete stC8d.fs ["ws"] "a.txt").1 ∧
     (handleApprovals stC8d ["ws"] "id-2" "approve").2 =
      HttpOut.errorResp 500 auditFailMsg) ∧
    (handleApprovals stC8d ["ws"] "id-2" "approve").2 ≠
      HttpOut.toolResp 200 (FileToolResult.ok (FileData.text "deleted")) := by
  have hw := C8_audit_failure_fails_response stC8 ["ws"] "id-1"
    ⟨"id-1", "file.write", ToolArgs.writeA "a.txt" "hi", "t0"⟩
    (by decide) (by decide) rfl
  have hd := C8_audit_failure_fails_response stC8d ["ws"] "id-2"
    ⟨"id-2", "file.delete", ToolArgs.deleteA "a.txt", "t0"⟩
    (by decide) (by decide) rfl
  exact ⟨hw.1 rfl, hd.2.1 rfl,
         hd.2.2 (FileToolResult.ok (FileData.text "deleted")) (Or.inr rfl)⟩

theorem posixResolve_dot (root : List String) : posixResolve root "." = root := by
  rw [posixResolve, if_neg (by decide)]
  show resolveSegs root ["."] = root
  rw [resolveSegs, if_pos (Or.inr rfl)]
  rfl

theorem relativeSegs_self (l : List String) : relativeSegs l l = [] := by
  have h := relativeSegs_append l []
  rwa [List.append_nil] at h

/-- C9: at the tool-gateway interface, list with an empty path is the same
call as list with "." and succeeds with the listing of the workspace root
(when the root is a directory), whereas list with a whitespace-only path and
read/write/delete with an empty or whitespace-only path all fail with the
empty-path error. -/
theorem C9_empty_path_tools (fs : Fs) (root : List String) (up : String) (maxBytes : Nat) :
    (FileTools.list fs root "" = FileTools.list fs root ".") ∧
    (lookupFs fs root = some FsNode.dir →
      FileTools.list fs root "" = (fs, FileToolResult.ok (FileData.entries (readdir fs root)))) ∧
    (up ≠ "" → jsTrim up = "" →
      FileTools.list fs root up = (fs, FileToolResult.err "Empty path")) ∧
    (jsTrim up = "" →
      FileTools.read fs root up maxBytes = (fs, FileToolResult.err "Empty path") ∧
      (∀ c, FileTools.write fs root up c = (fs, FileToolResult.err "Empty path")) ∧
      FileTools.delete fs root up = (fs, FileToolResult.err "Empty path")) := by
  refine ⟨rfl, ?_, ?_, ?_⟩
  · intro hdir
    have h1 : ¬ jsTrim "." = "" := by decide
    have h2 : win32IsAbsolute "." = false := by decide
    have h3 : hasDrivePrefix "." = false := by decide
    have h4 : (jsStartsWith "." "\\\\" || jsStartsWith "." "//") = false := by decide
    have hres : posixResolve root "." = root := posixResolve_dot root
    have h5 : (jsStartsWith (joinSegs (relativeSegs root (posixResolve root "."))) ".." ||
        jsStartsWith (joinSegs (relativeSegs root (posixResolve root "."))) "/") = false := by
      rw [hres, relativeSegs_self]
      decide
    have hex : fsExists fs root = true := by simp [fsExists, hdir]
    have hns : lookupFs fs root ≠ some FsNode.symlink := by simp [hdir]
    have hw : WorkspaceFS.walk fs root
        ((relativeSegs root (if Mode.list = Mode.write then dirname (posixResolve root ".")
          else posixResolve root ".")).filter (fun s => s != "")) = Except.ok () := by
      rw [if_neg (by decide), hres, relativeSegs_self]
      rfl
    have hens := ensure_of_walk h1 h2 h3 h4 h5 hex hns hw
    have hens2 : WorkspaceFS.ensureInsideWorkspace fs root "." Mode.list =
        (fs, Except.ok root) := by
      simpa [hres] using hens
    simp [FileTools.list, WorkspaceFS.listDir, hens2, hdir, reasonMsg]
  · intro hne htrim
    simp [FileTools.list, hne, WorkspaceFS.listDir,
      ensure_empty fs root up Mode.list htrim, reasonMsg]
  · intro htrim
    refine ⟨?_, ?_, ?_⟩
    · simp [FileTools.read, WorkspaceFS.readText,
        ensure_empty fs root up Mode.read htrim, reasonMsg]
    · intro c
      simp [FileTools.write, WorkspaceFS.writeText,
        ensure_empty fs root up Mode.write htrim, reasonMsg]
    · simp [FileTools.delete, WorkspaceFS.remove,
        ensure_empty fs root up Mode.delete htrim, reasonMsg]

/-- Concrete filesystem for the C9 witness. -/
def fsC9 : Fs := [(["ws"], FsNode.dir), (["ws", "a.txt"], FsNode.file "x")]

/-- Witness for C9 at a concrete workspace: list "" succeeds with the root
listing, list "   " and read/write/delete on "" / "   " fail. -/
theorem C9_empty_path_tools_witness :
    FileTools.list fsC9 ["ws"] "" =
      (fsC9, FileToolResult.ok (FileData.entries (readdir fsC9 ["ws"]))) ∧
    FileTools.list fsC9 ["ws"] "   " = (fsC9, FileToolResult.err "Empty path") ∧
    FileTools.read fsC9 ["ws"] "" 1000000 = (fsC9, FileToolResult.err "Empty path") ∧
    FileTools.write fsC9 ["ws"] "   " "hi" = (fsC9, FileToolResult.err "Empty path") ∧
    FileTools.delete fsC9 ["ws"] "" = (fsC9, FileToolResult.err "Empty path") := by
  have h := C9_empty_path_tools fsC9 ["ws"] "   " 1000000
  have h0 := C9_empty_path_tools fsC9 ["ws"] "" 1000000
  refine ⟨h.2.1 (by decide), h.2.2.1 (by decide) (by decide), ?_, ?_, ?_⟩
  · exact (h0.2.2.2 (by decide)).1
  · exact (h.2.2.2 (by decide)).2.1 "hi"
  · exact (h0.2.2.2 (by decide)).2.2

theorem utf8ByteSize_replicate (n : Nat) :
    String.utf8ByteSize ⟨List.replicate n 'x'⟩ = n := by
  induction n with
  | zero => rfl
  | succ k ih =>
    rw [List.replicate_succ]
    show String.utf8ByteSize ⟨List.replicate k 'x'⟩ + ('x').utf8Size = k + 1
    rw [ih, show ('x').utf8Size = 1 from by decide]

/-- C10 (amended): for write requests with a non-empty path, content larger
than 10 MiB is rejected with status 413 with the server state — ledger,
audit trail and workspace alike — completely unchanged, while content at or
below the limit proceeds to create a pending ledger entry.  (A request with
an empty or missing path is answered 400 before the size check: see the
counterexample.) -/
theorem C10_write_size_limit (st : ServerState) (fid now p c : String) (hp : p ≠ "") :
    (String.utf8ByteSize c > MAX_WRITE_BYTES →
      handleFileWrite st fid now p c = (st, HttpOut.errorResp 413 "Content too large")) ∧
    (String.utf8ByteSize c ≤ MAX_WRITE_BYTES →
      (handleFileWrite st fid now p c).1.am.pending =
        st.am.pending ++ [(fid, ⟨fid, "file.write", ToolArgs.writeA p c, now⟩)]) := by
  constructor
  · intro hsz
    simp [handleFileWrite, hp, hsz]
  · intro hsz
    have hsz' : ¬ String.utf8ByteSize c > MAX_WRITE_BYTES := by omega
    by_cases ha : st.auditOk
    · simp [handleFileWrite, hp, hsz', ApprovalManager.add, auditLog, ha]
    · simp [handleFileWrite, hp, hsz', ApprovalManager.add, auditLog, ha]

/-- Content one byte over the 10 MiB limit. -/
def bigContent : String := ⟨List.replicate (MAX_WRITE_BYTES + 1) 'x'⟩

/-- Counterexample to C10 as stated: a write request whose content exceeds
10 MiB but whose path is empty is answered 400 (missing path), not 413 —
the size check is not the first check applied. -/
theorem C10_counterexample :
    String.utf8ByteSize bigContent > MAX_WRITE_BYTES ∧
    handleFileWrite stW "id-1" "t0" "" bigContent =
      (stW, HttpOut.errorResp 400 "Missing path") ∧
    (handleFileWrite stW "id-1" "t0" "" bigContent).2 ≠
      HttpOut.errorResp 413 "Content too large" := by
  have hbig : String.utf8ByteSize bigContent = MAX_WRITE_BYTES + 1 :=
    utf8ByteSize_replicate (MAX_WRITE_BYTES + 1)
  have h400 : handleFileWrite stW "id-1" "t0" "" bigContent =
      (stW, HttpOut.errorResp 400 "Missing path") := by
    simp [handleFileWrite]
  refine ⟨by omega, h400, ?_⟩
  rw [h400]
  simp

/-- Witness for the amended C10: an oversized request with a real path gets
413 and changes nothing; a small request creates the pending entry. -/
theorem C10_write_size_limit_witness :
    handleFileWrite stW "id-1" "t0" "big.txt" bigContent =
      (stW, HttpOut.errorResp 413 "Content too large") ∧
    (handleFileWrite stW "id-1" "t0" "a.txt" "hi").1.am.pending =
      [("id-1", ⟨"id-1", "file.write", ToolArgs.writeA "a.txt" "hi", "t0"⟩)] := by
  constructor
  · exact (C10_write_size_limit stW "id-1" "t0" "big.txt" bigContent (by decide)).1
      (by show String.utf8ByteSize ⟨List.replicate (MAX_WRITE_BYTES + 1) 'x'⟩ > MAX_WRITE_BYTES
          rw [utf8ByteSize_replicate]
          omega)
  · have h := (C10_write_size_limit stW "id-1" "t0" "a.txt" "hi" (by decide)).2
      (by decide)
    simpa [stW, ApprovalManager.empty] using h

/-- The test sequence of C6: `writeText(p, c)` followed by `readText(p)` with
the default read budget; a write failure propagates as the sequence's
failure. -/
def roundTrip (fs : Fs) (root : List String) (up c : String) : Except Reason String :=
  match WorkspaceFS.writeText fs root up c with
  | (_, .error e) => .error e
  | (fs1, .ok _) => (WorkspaceFS.readText fs1 root up 1000000).2

/-- C6 (amended): writing then reading round-trips — provided the workspace
root is a directory, write-mode resolution succeeds, every proper prefix of
the resolved target is absent or a directory, the target itself is absent or
a regular file, and the content is within the read byte budget. -/
theorem C6_write_read_roundtrip (fs : Fs) (root : List String) (up c : String)
    (resolved : List String)
    (hr : "" ∉ root ∧ "." ∉ root ∧ ".." ∉ root)
    (hens : WorkspaceFS.ensureInsideWorkspace fs root up Mode.write =
      (fs, Except.ok resolved))
    (hrootdir : lookupFs fs root = some FsNode.dir)
    (hanc : ∀ r, r <+: resolved → r ≠ resolved →
      lookupFs fs r = none ∨ lookupFs fs r = some FsNode.dir)
    (htarget : lookupFs fs resolved = none ∨
      ∃ c0, lookupFs fs resolved = some (FsNode.file c0))
    (hsize : String.utf8ByteSize c ≤ 1000000) :
    roundTrip fs root up c = Except.ok c := by
  obtain ⟨h1, h2, h3, h4, h5, hpres⟩ := ensure_ok_inversion hens
  have hpref : root <+: resolved := by
    rw [hpres]
    by_contra hnp
    obtain ⟨l, hl⟩ := relativeSegs_cons_of_not_prefix root _ hnp
    have hsw := jsStartsWith_joinSegs_parent l
    rw [← hl] at hsw
    rw [Bool.or_eq_false_iff] at h5
    exact absurd h5.1 (by simp [hsw])
  have hne_root : resolved ≠ root := by
    intro heq
    rcases htarget with ht | ⟨c0, ht⟩ <;> rw [heq, hrootdir] at ht <;> simp at ht
  have hres_ne_nil : resolved ≠ [] := by
    intro he
    rw [he, List.prefix_nil] at hpref
    exact hne_root (he.trans hpref.symm)
  obtain ⟨s, hs⟩ := hpref
  have hclean_res : ∀ x ∈ resolved, x ≠ "" ∧ x ≠ "." ∧ x ≠ ".." := by
    rw [hpres]
    exact posixResolve_elems_clean hr up
  -- the write: parent directories are created, then the file is written
  have hmk : ∀ q ∈ pathInits (dirname resolved),
      lookupFs fs q = none ∨ lookupFs fs q = some FsNode.dir := by
    intro q hq
    have hqp : q <+: dirname resolved := (mem_pathInits _ _).mp hq
    have hdp : resolved.dropLast <+: resolved := List.dropLast_prefix resolved
    have hqres : q <+: resolved := hqp.trans hdp
    have hqne : q ≠ resolved := by
      intro he
      subst he
      have hlen := hqp.length_le
      rw [dirname, List.length_dropLast] at hlen
      have hpos : 0 < q.length := List.length_pos.mpr hres_ne_nil
      omega
    exact hanc q hqres hqne
  obtain ⟨fs2, hgo, hdirs, hoth⟩ := mkdirpGo_spec (pathInits (dirname resolved)) fs hmk
  have hres2 : lookupFs fs2 resolved = lookupFs fs resolved := by
    refine hoth resolved ?_
    intro hmem
    have hpp := (mem_pathInits _ _).mp hmem
    have hlen := hpp.length_le
    rw [dirname, List.length_dropLast] at hlen
    have hpos : 0 < resolved.length := List.length_pos.mpr hres_ne_nil
    omega
  have hwrite : WorkspaceFS.writeText fs root up c =
      (fsSet fs2 resolved (FsNode.file c), Except.ok ()) := by
    rcases htarget with ht | ⟨c0, ht⟩
    · simp only [WorkspaceFS.writeText, hens, mkdirpE, hgo, hres2, ht]
    · simp only [WorkspaceFS.writeText, hens, mkdirpE, hgo, hres2, ht]
  -- the read-back on the written filesystem
  have hroot3 : lookupFs (fsSet fs2 resolved (FsNode.file c)) root = some FsNode.dir := by
    rw [lookupFs_fsSet, if_neg hne_root]
    have hrmem : root ∈ pathInits (dirname resolved) := by
      refine (mem_pathInits _ _).mpr ?_
      exact prefix_dropLast_of_proper ⟨s, hs⟩ (fun he => hne_root he.symm)
    exact hdirs root hrmem
  have hrel : relativeSegs root resolved = s := by
    rw [← hs, relativeSegs_append]
  have hsclean : ∀ x ∈ s, x ≠ "" ∧ x ≠ "." ∧ x ≠ ".." := by
    intro x hx
    refine hclean_res x ?_
    rw [← hs]
    exact List.mem_append.mpr (Or.inr hx)
  have hfilter : s.filter (fun x => x != "") = s :=
    List.filter_eq_self.mpr (fun a ha => by simp [(hsclean a ha).1])
  have hlook3 : lookupFs (fsSet fs2 resolved (FsNode.file c)) resolved =
      some (FsNode.file c) := by
    rw [lookupFs_fsSet, if_pos rfl]
  have hsafe : ∀ t, t ≠ [] → t <+: s →
      lookupFs (fsSet fs2 resolved (FsNode.file c)) (root ++ t) ≠ some FsNode.symlink := by
    intro t ht hts
    by_cases hteq : t = s
    · subst hteq
      rw [hs, hlook3]
      simp
    · have hproper : root ++ t ≠ resolved := by
        intro he
        rw [← hs] at he
        exact hteq (List.append_cancel_left he)
      have hpre_res : root ++ t <+: resolved := by
        rw [← hs]
        exact (List.prefix_append_right_inj root).mpr hts
      have hmem : (root ++ t) ∈ pathInits (dirname resolved) :=
        (mem_pathInits _ _).mpr (prefix_dropLast_of_proper hpre_res hproper)
      have hdir2 : lookupFs fs2 (root ++ t) = some FsNode.dir := hdirs _ hmem
      rw [lookupFs_fsSet, if_neg (fun he => hproper he.symm), hdir2]
      simp
  have hwalkread := walk_ok (fsSet fs2 resolved (FsNode.file c)) s root hsclean hsafe
  have hwr : WorkspaceFS.walk (fsSet fs2 resolved (FsNode.file c)) root
      ((relativeSegs root (if Mode.read = Mode.write then dirname (posixResolve root up)
        else posixResolve root up)).filter (fun x => x != "")) = Except.ok () := by
    rw [if_neg (by decide), ← hpres, hrel, hfilter]
    exact hwalkread
  have hexx : fsExists (fsSet fs2 resolved (FsNode.file c)) root = true := by
    simp [fsExists, hroot3]
  have hens_read := ensure_of_walk h1 h2 h3 h4 h5 hexx
    (by simp [hroot3]) hwr
  have hens_read2 : WorkspaceFS.ensureInsideWorkspace (fsSet fs2 resolved (FsNode.file c))
      root up Mode.read = (fsSet fs2 resolved (FsNode.file c), Except.ok resolved) := by
    simpa [← hpres] using hens_read
  have hsz' : ¬ String.utf8ByteSize c > 1000000 := by omega
  rw [roundTrip, hwrite]
  simp [WorkspaceFS.readText, hens_read2, hlook3, hsz']

/-- Workspace with an existing directory "d" for the C6 counterexample. -/
def fsC6 : Fs := [(["ws"], FsNode.dir), (["ws", "d"], FsNode.dir)]

/-- Counterexample to C6 as stated: "d" resolves inside the root in write
mode (and read mode) and "hi" is within the byte budget, yet writeText to an
existing directory fails (EISDIR), so write-then-read does not return the
content. -/
theorem C6_counterexample :
    WorkspaceFS.ensureInsideWorkspace fsC6 ["ws"] "d" Mode.write =
      (fsC6, Except.ok ["ws", "d"]) ∧
    WorkspaceFS.ensureInsideWorkspace fsC6 ["ws"] "d" Mode.read =
      (fsC6, Except.ok ["ws", "d"]) ∧
    String.utf8ByteSize "hi" ≤ 1000000 ∧
    roundTrip fsC6 ["ws"] "d" "hi" = Except.error Reason.IOError ∧
    roundTrip fsC6 ["ws"] "d" "hi" ≠ Except.ok "hi" := by
  refine ⟨by decide, by decide, by decide, by decide, by decide⟩

/-- Workspace for the C6 witness: only the root directory exists. -/
def fsC6w : Fs := [(["ws"], FsNode.dir)]

/-- Witness for the amended C6 at a nested fresh path (parent directories are
created by the write). -/
theorem C6_write_read_roundtrip_witness :
    roundTrip fsC6w ["ws"] "sub/foo.txt" "hello" = Except.ok "hello" := by
  refine C6_write_read_roundtrip fsC6w ["ws"] "sub/foo.txt" "hello"
    ["ws", "sub", "foo.txt"] (by decide) (by decide) (by decide) ?_
    (Or.inl (by decide)) (by decide)
  intro r hpre hne
  have hr' : r ∈ pathInits ["ws", "sub", "foo.txt"] := (mem_pathInits _ _).mpr hpre
  have hcases : r = [] ∨ r = ["ws"] ∨ r = ["ws", "sub"] ∨ r = ["ws", "sub", "foo.txt"] := by
    simpa [pathInits] using hr'
  rcases hcases with rfl | rfl | rfl | rfl
  · exact Or.inl (by decide)
  · exact Or.inr (by decide)
  · exact Or.inl (by decide)
  · exact absurd rfl hne
